import Mathlib

/-!
# Verification of the lua-kit binary chunk codec

A shallow embedding of `src/read.rs`, `src/write.rs` and `src/types.rs` of the
lua-kit repository: a reader/writer pair for Lua 5.1 ("revision A") and
Lua 5.3 ("revision B") binary chunks.

Byte streams are modelled as `List Nat` (each byte `< 256`); readers are
state-passing functions `List Nat → Except LuaError (α × List Nat)`
mirroring the sequential `io::Read` consumption of the source, and writers
produce `Except LuaError (List Nat)` (the `io::Error` raised by `try_into`
failures is the only write-side failure; sink I/O errors are out of scope).
`f64`/`f32` values are modelled by their IEEE-754 bit patterns (`Nat`);
where the source compares float *values* (the revision-B number sentinel
check) the bit pattern is mapped to an exact dyadic rational.  The
`todo!()` bodies of `read_prototype53`/`write_prototype53` are modelled as
a distinguished `panicTodo` error.
-/

namespace LuaKit

/-- Error outcomes of the codec.  Each constructor corresponds to one
`io::Error::new(..)` site (or panic) in `read.rs`/`write.rs`; message
strings are not modelled, only error identity. -/
inductive LuaError : Type where
  /-- `read_exact` / `read_u8` hit end of input (an I/O short read). -/
  | eof : LuaError
  /-- "LuaJit chunk detected, but this library does not support LuaJit". -/
  | luaJitUnsupported : LuaError
  /-- "Unrecognized Lua signature". -/
  | badSignature : LuaError
  /-- "Unsupported version". -/
  | unsupportedVersion (v : Nat) : LuaError
  /-- "Unsupported format". -/
  | unsupportedFormat (f : Nat) : LuaError
  /-- "Unrecognized lua 5.3 test data". -/
  | badTestData : LuaError
  /-- "Unsupported endianness". -/
  | unsupportedEndianness (e : Nat) : LuaError
  /-- "Unsupported {int,size_t,inst,integer,num}_bytes value size". -/
  | unsupportedWidth (v : Nat) : LuaError
  /-- "Unrecognized test integer". -/
  | badTestInt : LuaError
  /-- "Unrecognized test number". -/
  | badTestNumber : LuaError
  /-- "Unrecognized constant type {o}". -/
  | unknownConstantTag (t : Nat) : LuaError
  /-- a `try_into` length conversion failed while reading (negative size). -/
  | lengthError (n : Int) : LuaError
  /-- `try_into` failed while writing a string (length does not fit `i64`). -/
  | writeLenOverflow : LuaError
  /-- the `todo!()` bodies of `read_prototype53` / `write_prototype53`. -/
  | panicTodo : LuaError
  /-- artifact of the fuelled embedding of the reader recursion; never
  produced when the fuel bounds the nesting depth. -/
  | outOfFuel : LuaError
deriving DecidableEq, Repr

/-- A reader: consumes a prefix of the byte list, mirroring `io::Read`. -/
def M (α : Type) : Type := List Nat → Except LuaError (α × List Nat)

instance : Monad M where
  pure a := fun l => .ok (a, l)
  bind m f := fun l =>
    match m l with
    | .error e => .error e
    | .ok (a, l2) => f a l2

/-- A failing reader (the sites that `return Err(..)` in the source). -/
def mfail (e : LuaError) : M α := fun _ => .error e

/-- `read_u8`: one byte, or an end-of-input error. -/
def readU8 : M Nat := fun l =>
  match l with
  | [] => .error .eof
  | b :: bs => .ok (b, bs)

/-- `read_exact` into a buffer of `n` bytes. -/
def readN : Nat → M (List Nat)
  | 0 => pure []
  | n + 1 => fun l =>
    match l with
    | [] => .error .eof
    | b :: bs =>
      match readN n bs with
      | .error e => .error e
      | .ok (xs, r) => .ok (b :: xs, r)

/-- Big-endian interpretation of a byte list. -/
def beNat : List Nat → Nat
  | [] => 0
  | b :: bs => b * 256 ^ bs.length + beNat bs

/-- The byte order parameter `E: ByteOrder` of `LuaReader`/`LuaWriter`. -/
inductive LuaEndianness : Type where
  | little : LuaEndianness
  | big : LuaEndianness
deriving DecidableEq, Repr

/-- Interpret raw bytes at a byte order (`byteorder::BE` / `byteorder::LE`). -/
def natFromBytes (en : LuaEndianness) (bs : List Nat) : Nat :=
  match en with
  | .big => beNat bs
  | .little => beNat bs.reverse

/-- Big-endian encoding of `n % 256^w` in exactly `w` bytes. -/
def natToBytesBE : Nat → Nat → List Nat
  | 0, _ => []
  | w + 1, n => natToBytesBE w (n / 256) ++ [n % 256]

/-- Encode `n % 256^w` in `w` bytes at the given byte order. -/
def natToBytes (en : LuaEndianness) (w : Nat) (n : Nat) : List Nat :=
  match en with
  | .big => natToBytesBE w n
  | .little => (natToBytesBE w n).reverse

/-- Two's-complement reading of a `w`-byte pattern (`i32`/`i64` semantics). -/
def toSigned (w : Nat) (n : Nat) : Int :=
  if n < 2 ^ (8 * w - 1) then (n : Int) else (n : Int) - 2 ^ (8 * w)

/-- Two's-complement pattern of an integer at `w` bytes (the effect of the
`as i32` / `as i64` casts before the bytes are emitted). -/
def ofSigned (w : Nat) (v : Int) : Nat := (v % (2 ^ (8 * w))).toNat

/-! ## IEEE-754 model

Floats are carried as bit patterns.  The revision-B sentinel check in
`read_header` compares float *values*, so a bit pattern is mapped to an
extended dyadic value.  Finite float arithmetic there is exact dyadic
arithmetic; the two subtractions the source performs on those paths are
exact in IEEE-754 as well for every value our theorems touch, so no
rounding model is needed for them. -/

/-- A float value: a finite dyadic `m * 2 ^ e`, an infinity, or a NaN. -/
inductive FVal : Type where
  | fin (m : Int) (e : Int) : FVal
  | inf : FVal
  | ninf : FVal
  | nan : FVal
deriving DecidableEq, Repr

/-- Decode an `f64` bit pattern into its value. -/
def f64BitsToF (b : Nat) : FVal :=
  let b := b % 2 ^ 64
  let s := b / 2 ^ 63
  let e : Nat := b / 2 ^ 52 % 2 ^ 11
  let m := b % 2 ^ 52
  if e = 2047 then
    if m = 0 then (if s = 1 then .ninf else .inf) else .nan
  else
    let mag : Nat := if e = 0 then m else 2 ^ 52 + m
    let ex : Int := if e = 0 then -1074 else (e : Int) - 1075
    .fin (if s = 1 then -(mag : Int) else (mag : Int)) ex

/-- `f64::abs`. -/
def fabs : FVal → FVal
  | .fin m e => .fin |m| e
  | .inf => .inf
  | .ninf => .inf
  | .nan => .nan

/-- `f64` subtraction; exact on finite values (see the section comment). -/
def fsub : FVal → FVal → FVal
  | .fin m1 e1, .fin m2 e2 =>
    let e := min e1 e2
    .fin (m1 * 2 ^ (e1 - e).toNat - m2 * 2 ^ (e2 - e).toNat) e
  | .fin _ _, .inf => .ninf
  | .fin _ _, .ninf => .inf
  | .inf, .fin _ _ => .inf
  | .ninf, .fin _ _ => .ninf
  | .inf, .ninf => .inf
  | .ninf, .inf => .ninf
  | .inf, .inf => .nan
  | .ninf, .ninf => .nan
  | .nan, _ => .nan
  | _, .nan => .nan

/-- `f64` strict `>` (false whenever a NaN is involved). -/
def fgt : FVal → FVal → Bool
  | .fin m1 e1, .fin m2 e2 =>
    let e := min e1 e2
    m1 * 2 ^ (e1 - e).toNat > m2 * 2 ^ (e2 - e).toNat
  | .fin _ _, .inf => false
  | .fin _ _, .ninf => true
  | .inf, .fin _ _ => true
  | .ninf, .fin _ _ => false
  | .inf, .ninf => true
  | .inf, .inf => false
  | .ninf, _ => false
  | .nan, _ => false
  | _, .nan => false

/-- Widen an `f32` bit pattern to the `f64` bit pattern of the same value
(the `v as f64` cast after `read_f32`; exact in IEEE-754).  For a NaN the
payload is shifted and the quiet bit set (Rust leaves the exact NaN bits
unspecified; no theorem depends on them). -/
def widen32to64 (b : Nat) : Nat :=
  let b := b % 2 ^ 32
  let s := b / 2 ^ 31
  let e : Nat := b / 2 ^ 23 % 2 ^ 8
  let m := b % 2 ^ 23
  if e = 255 then
    if m = 0 then s * 2 ^ 63 + 2047 * 2 ^ 52
    else s * 2 ^ 63 + 2047 * 2 ^ 52 + 2 ^ 51 + m * 2 ^ 29
  else if e = 0 then
    if m = 0 then s * 2 ^ 63
    else
      -- subnormal f32: value m * 2^-149 normalizes to an f64 with
      -- exponent field (Nat.log2 m) + 874
      let l := Nat.log2 m
      s * 2 ^ 63 + (l + 874) * 2 ^ 52 + (m * 2 ^ (52 - l) - 2 ^ 52)
  else
    s * 2 ^ 63 + (e + 896) * 2 ^ 52 + m * 2 ^ 29

/-- Round-to-nearest-even of `m / 2 ^ shift`. -/
def rtne (m : Nat) (shift : Nat) : Nat :=
  let q := m / 2 ^ shift
  let r := m % 2 ^ shift
  let half := 2 ^ shift / 2
  if r > half ∨ (r = half ∧ q % 2 = 1) then q + 1 else q

/-- Narrow an `f64` bit pattern to an `f32` bit pattern (the `value as f32`
cast in `write_lua_number`), with IEEE round-to-nearest-even, overflow to
infinity and underflow through subnormals.  Never reached by the theorems
below: the round-trip claim is settled at number width 8. -/
def narrow64to32 (b : Nat) : Nat :=
  let b := b % 2 ^ 64
  let s := b / 2 ^ 63
  let e : Nat := b / 2 ^ 52 % 2 ^ 11
  let m := b % 2 ^ 52
  if e = 2047 then
    if m = 0 then s * 2 ^ 31 + 255 * 2 ^ 23
    else s * 2 ^ 31 + 255 * 2 ^ 23 + 2 ^ 22 + m / 2 ^ 29 % 2 ^ 22
  else
    -- |v| = mag * 2 ^ ex exactly
    let mag : Nat := if e = 0 then m else 2 ^ 52 + m
    let ex : Int := if e = 0 then -1074 else (e : Int) - 1075
    if mag = 0 then s * 2 ^ 31
    else
      -- floor log2 |v|
      let lg : Int := (Nat.log2 mag : Int) + ex
      -- ulp exponent of the f32 target (subnormal floor at 2^-149)
      let u : Int := max (lg - 23) (-149)
      -- n = RTNE(|v| / 2^u); u ≥ ex − 52 always holds here
      let n := rtne mag (u - ex).toNat
      if n = 0 then s * 2 ^ 31
      else
        let n2 := if n = 2 ^ 24 then 2 ^ 23 else n
        let u2 := if n = 2 ^ 24 then u + 1 else u
        if n2 < 2 ^ 23 then s * 2 ^ 31 + n2
        else
          let field : Int := u2 + 150
          if field ≥ 255 then s * 2 ^ 31 + 255 * 2 ^ 23
          else s * 2 ^ 31 + field.toNat * 2 ^ 23 + (n2 - 2 ^ 23)

/-- `f64` bit pattern of the sentinel constant `TEST_NUMBER = 370.5`. -/
def F64_370_5 : Nat := 0x4077280000000000

/-- `f32` bit pattern of `TEST_NUMBER_F32 = 370.5f32`. -/
def F32_370_5 : Nat := 0x43B94000

/-- Value of the `0.0001f64` tolerance literal in `read_header`
(the IEEE-754 double nearest 1/10000, bits 0x3F1A36E2EB1C432D). -/
def sentinelTolerance : FVal := .fin (2 ^ 52 + 0xA36E2EB1C432D) (-66)

/-- The sentinel float value `370.5 = 741 * 2 ^ -1`. -/
def sentinelNumber : FVal := .fin 741 (-1)

/-! ## The data model of `types.rs` -/

/-- `types.rs` `Version`. -/
inductive Version : Type where
  | lua51 : Version
  | lua53 : Version
deriving DecidableEq, Repr

/-- The `#[repr(u8)]` discriminant (`0x51` / `0x53`). -/
def Version.toNat : Version → Nat
  | .lua51 => 0x51
  | .lua53 => 0x53

/-- `types.rs` `ValueSize`. -/
inductive ValueSize : Type where
  | four : ValueSize
  | eight : ValueSize
deriving DecidableEq, Repr

/-- The `#[repr(u8)]` discriminant (4 / 8), also the byte width. -/
def ValueSize.toNat : ValueSize → Nat
  | .four => 4
  | .eight => 8

/-- `types.rs` `ChunkHeader`. -/
structure ChunkHeader : Type where
  version : Version
  endian : LuaEndianness
  intBytes : ValueSize
  sizeBytes : ValueSize
  instBytes : ValueSize
  luaIntegerBytes : ValueSize
  luaNumberBytes : ValueSize
  integralFlag : Bool
deriving DecidableEq, Repr

/-- `types.rs` `Constant`.  `number` carries the `f64` bit pattern. -/
inductive Constant : Type where
  | nil : Constant
  | boolean (b : Bool) : Constant
  | number (bits : Nat) : Constant
  | integer (v : Int) : Constant
  | string (s : List Nat) : Constant
deriving DecidableEq, Repr

/-- `types.rs` `Upvalue`. -/
inductive Upvalue : Type where
  | outer (idx : Nat) : Upvalue
  | stack (idx : Nat) : Upvalue
deriving DecidableEq, Repr

/-- `types.rs` `LuaDebugLocalVar`. -/
structure LuaDebugLocalVar : Type where
  name : List Nat
  startPc : Int
  endPc : Int
deriving DecidableEq, Repr

/-- `types.rs` `LuaDebug`. -/
structure LuaDebug : Type where
  lineinfo : List Int
  localvars : List LuaDebugLocalVar
  upvalues : List (List Nat)
deriving DecidableEq, Repr

/-- `types.rs` `Prototype` (a nested inductive: `protos` owns the children). -/
inductive Prototype : Type where
  | mk
    (source : List Nat)
    (lineDefined : Int)
    (lastLineDefined : Int)
    (numParams : Nat)
    (isVararg : Nat)
    (maxStackSize : Nat)
    (code : List Nat)
    (constants : List Constant)
    (upvalues : List Upvalue)
    (nups : Nat)
    (protos : List Prototype)
    (debug : LuaDebug) : Prototype

/-- Field accessor mirroring `Prototype.source`. -/
def Prototype.source : Prototype → List Nat
  | .mk s _ _ _ _ _ _ _ _ _ _ _ => s

/-- Field accessor mirroring `Prototype.upvalues`. -/
def Prototype.upvalues : Prototype → List Upvalue
  | .mk _ _ _ _ _ _ _ _ u _ _ _ => u

/-- Field accessor mirroring `Prototype.constants`. -/
def Prototype.constants : Prototype → List Constant
  | .mk _ _ _ _ _ _ _ c _ _ _ _ => c

/-- Field accessor mirroring `Prototype.protos`. -/
def Prototype.protos : Prototype → List Prototype
  | .mk _ _ _ _ _ _ _ _ _ _ p _ => p

/-- `types.rs` `Chunk`. -/
structure Chunk : Type where
  header : ChunkHeader
  proto : Prototype

/-- `LUA_SIGNATURE = b"\x1bLua"`. -/
def LUA_SIGNATURE : List Nat := [0x1B, 0x4C, 0x75, 0x61]

/-- `DATA = b"\x19\x93\r\n\x1a\n"` (the Lua 5.3 conversion-check bytes). -/
def DATA : List Nat := [0x19, 0x93, 0x0D, 0x0A, 0x1A, 0x0A]

/-- `TEST_INT = 0x5678`. -/
def TEST_INT : Int := 0x5678

/-! ## `read.rs`: the header -/

/-- Map a width byte to a `ValueSize` (the four `match` blocks of
`read_header` on `int_bytes`, `size_t_bytes`, `inst_bytes`,
`integer_bytes`, `num_bytes`). -/
def readValueSize : M ValueSize := do
  let v ← readU8
  match v with
  | 4 => pure ValueSize.four
  | 8 => pure ValueSize.eight
  | v => mfail (.unsupportedWidth v)

/-- The `i64::from_be_bytes(v.to_le_bytes())` byte swap of a 64-bit signed
value (note: always 64-bit, regardless of how wide the original read was). -/
def swap64int (v : Int) : Int :=
  toSigned 8 (beNat ((natToBytesBE 8 (ofSigned 8 v)).reverse))

/-- Byte swap of an `f64` bit pattern (`f64::from_be_bytes(v.to_le_bytes())`). -/
def swap64bits (b : Nat) : Nat :=
  beNat ((natToBytesBE 8 (b % 2 ^ 64)).reverse)

/-- `read.rs` `read_header`. -/
def readHeader : M ChunkHeader := do
  -- Check for LuaJit first
  let pre ← readN 3
  if pre = [0x01, 0x4C, 0x4A] then mfail .luaJitUnsupported
  else do
  let last ← readN 1
  if pre ++ last ≠ LUA_SIGNATURE then mfail .badSignature
  else do
  let vbyte ← readU8
  let version ←
    match vbyte with
    | 0x51 => pure Version.lua51
    | 0x53 => pure Version.lua53
    | v => mfail (.unsupportedVersion v)
  let format ← readU8
  if format ≠ 0 then mfail (.unsupportedFormat format)
  else do
  -- Lua 5.3 test data
  (if version = Version.lua53 then do
    let d ← readN 6
    if d ≠ DATA then mfail .badTestData else pure ()
  else pure ())
  -- Lua 5.1 explicit endianness byte
  let endianness51 ←
    (if version = Version.lua51 then do
      let e ← readU8
      match e with
      | 0 => pure LuaEndianness.big
      | 1 => pure LuaEndianness.little
      | e => mfail (.unsupportedEndianness e)
    else pure LuaEndianness.big)
  let intBytes ← readValueSize
  let sizeBytes ← readValueSize
  let instBytes ← readValueSize
  let integerBytes ←
    (if version ≠ Version.lua51 then readValueSize else pure ValueSize.eight)
  let numBytes ← readValueSize
  -- Lua 5.3 endianness detection via the sentinel pair
  let endianness ←
    (if version = Version.lua53 then do
      let ti ←
        match integerBytes with
        | .four => do
          let bs ← readN 4
          pure (toSigned 4 (beNat bs))
        | .eight => do
          let bs ← readN 8
          pure (toSigned 8 (beNat bs))
      let tn ←
        match numBytes with
        | .four => do
          let bs ← readN 4
          pure (widen32to64 (beNat bs))
        | .eight => do
          let bs ← readN 8
          pure (beNat bs)
      let (endian, testInt, testNum) :=
        if ti ≠ TEST_INT then
          (LuaEndianness.little, swap64int ti, swap64bits tn)
        else (LuaEndianness.big, ti, tn)
      if testInt ≠ TEST_INT then mfail .badTestInt
      else if fgt (fsub (fabs (f64BitsToF testNum)) sentinelNumber)
          sentinelTolerance then
        mfail .badTestNumber
      else pure endian
    else pure endianness51)
  let integralFlag ←
    (if version = Version.lua51 then do
      let b ← readU8
      pure (b == 1)
    else pure false)
  pure {
    version := version
    endian := endianness
    intBytes := intBytes
    sizeBytes := sizeBytes
    instBytes := instBytes
    luaIntegerBytes := integerBytes
    luaNumberBytes := numBytes
    integralFlag := integralFlag
  }

/-! ## `read.rs`: `LuaReader` methods

The Rust `LuaReader<R, E>` closes over the header and the byte-order type
parameter `E`; here both are passed explicitly (`en` is `header.endian`,
fixed by `read_chunk` / `write_chunk`). -/

/-- Read `w.toNat` bytes and interpret them at byte order `en`. -/
def readRaw (en : LuaEndianness) (w : ValueSize) : M Nat := do
  let bs ← readN w.toNat
  pure (natFromBytes en bs)

/-- `read_lua_int`: a signed integer of width `header.int_bytes`,
sign-extended to `i64`. -/
def readLuaInt (en : LuaEndianness) (h : ChunkHeader) : M Int := do
  let n ← readRaw en h.intBytes
  pure (toSigned h.intBytes.toNat n)

/-- `read_lua_size_t`: a signed integer of width `header.size_bytes`. -/
def readLuaSizeT (en : LuaEndianness) (h : ChunkHeader) : M Int := do
  let n ← readRaw en h.sizeBytes
  pure (toSigned h.sizeBytes.toNat n)

/-- `read_lua_integer`: a signed integer of width
`header.lua_integer_bytes`. -/
def readLuaInteger (en : LuaEndianness) (h : ChunkHeader) : M Int := do
  let n ← readRaw en h.luaIntegerBytes
  pure (toSigned h.luaIntegerBytes.toNat n)

/-- `read_lua_number`: an `f64` (bit pattern) of width
`header.lua_number_bytes`; a 4-byte read is an `f32` widened by `as f64`. -/
def readLuaNumber (en : LuaEndianness) (h : ChunkHeader) : M Nat := do
  match h.luaNumberBytes with
  | .four => do
    let n ← readRaw en ValueSize.four
    pure (widen32to64 n)
  | .eight => readRaw en ValueSize.eight

/-- `read_lua_instruction`: an unsigned scalar of width
`header.inst_bytes`, zero-extended to `u64`. -/
def readLuaInstruction (en : LuaEndianness) (h : ChunkHeader) : M Nat :=
  readRaw en h.instBytes

/-- The element loop of `read_lua_vector` (`for _ in 0..safe_size`). -/
def readLuaVectorAux (f : M α) : Nat → M (List α)
  | 0 => pure []
  | n + 1 => do
    let a ← f
    let as ← readLuaVectorAux f n
    pure (a :: as)

/-- `read_lua_vector`: a count (signed, width `int_bytes`) followed by that
many elements; count 0 short-circuits, a negative count fails the
`usize::try_into`. -/
def readLuaVector (en : LuaEndianness) (h : ChunkHeader) (f : M α) :
    M (List α) := do
  let size ← readLuaInt en h
  if size = 0 then pure []
  else if size < 0 then mfail (.lengthError size)
  else readLuaVectorAux f size.toNat

/-- `read_lua_string_51`: a `size_t`-width length then that many raw bytes
(length 0 yields the empty string with no further reads). -/
def readLuaString51 (en : LuaEndianness) (h : ChunkHeader) : M (List Nat) := do
  let size ← readLuaSizeT en h
  if size = 0 then pure []
  else if size < 0 then mfail (.lengthError size)
  else readN size.toNat

/-- `read_lua_string_52`: one size byte `b`; 0 yields the empty string,
`b < 0xFF` reads `b` bytes, `b = 0xFF` escapes to a `size_t`-width length
(note: the source reads `b` bytes, not `b - 1`). -/
def readLuaString52 (en : LuaEndianness) (h : ChunkHeader) : M (List Nat) := do
  let smallSize ← readU8
  if smallSize = 0 then pure []
  else do
    let len ←
      (if smallSize < 0xFF then pure smallSize
      else do
        let size ← readLuaSizeT en h
        if size < 0 then mfail (.lengthError size)
        else pure size.toNat)
    readN len

/-- `read_lua_string`: version dispatch. -/
def readLuaString (en : LuaEndianness) (h : ChunkHeader) : M (List Nat) :=
  match h.version with
  | .lua51 => readLuaString51 en h
  | .lua53 => readLuaString52 en h

/-- The constant-pool element closure inside `read_prototype51`. -/
def readConstant (en : LuaEndianness) (h : ChunkHeader) : M Constant := do
  let tag ← readU8
  match tag with
  | 0x00 => pure Constant.nil
  | 0x01 => do
    let b ← readU8
    pure (Constant.boolean (b > 0))
  | 0x03 => do
    let bits ← readLuaNumber en h
    pure (Constant.number bits)
  | 0x13 => do
    let v ← readLuaInteger en h
    pure (Constant.integer v)
  | 0x04 => do
    let s ← readLuaString en h
    pure (Constant.string s)
  | 0x14 => do
    let s ← readLuaString en h
    pure (Constant.string s)
  | o => mfail (.unknownConstantTag o)

/-- `read_lua_debug`: lineinfo, localvars and upvalue-name vectors. -/
def readLuaDebug (en : LuaEndianness) (h : ChunkHeader) : M LuaDebug := do
  let lineinfo ← readLuaVector en h (readLuaInt en h)
  let localvars ← readLuaVector en h (do
    let name ← readLuaString en h
    let startPc ← readLuaInt en h
    let endPc ← readLuaInt en h
    pure (LuaDebugLocalVar.mk name startPc endPc))
  let upvalues ← readLuaVector en h (readLuaString en h)
  pure (LuaDebug.mk lineinfo localvars upvalues)

/-- `read_prototype51`.  The recursion through `protos` is driven by a fuel
parameter (the Rust recursion has no intrinsic bound; `read_chunk` below
instantiates the fuel with the input length, which the depth lemmas show
is always sufficient). -/
def readProto51 (en : LuaEndianness) (h : ChunkHeader) : Nat → M Prototype
  | 0 => mfail .outOfFuel
  | fuel + 1 => do
    let source ← readLuaString en h
    let lineDefined ← readLuaInt en h
    let lastLineDefined ← readLuaInt en h
    let nups ← readU8
    let numParams ← readU8
    let isVararg ← readU8
    let maxStackSize ← readU8
    let code ← readLuaVector en h (readLuaInstruction en h)
    let constants ← readLuaVector en h (readConstant en h)
    -- the upvalue vector is commented out in the source; `upvalues` is
    -- populated with `Vec::new()`
    let protos ← readLuaVector en h (readProto51 en h fuel)
    let debug ← readLuaDebug en h
    pure (Prototype.mk source lineDefined lastLineDefined numParams isVararg
      maxStackSize code constants [] nups protos debug)

/-- `read_prototype53` is `todo!()`. -/
def readProto53 (_en : LuaEndianness) (_h : ChunkHeader) : M Prototype :=
  mfail .panicTodo

/-- `read_prototype`: version dispatch. -/
def readPrototype (en : LuaEndianness) (h : ChunkHeader) (fuel : Nat) :
    M Prototype :=
  match h.version with
  | .lua51 => readProto51 en h fuel
  | .lua53 => readProto53 en h

/-- `read_chunk`: header, then the root prototype at the header's byte
order.  The fuel is the remaining input length plus one, which bounds the
possible nesting depth (each level consumes at least one byte). -/
def readChunk (l : List Nat) : Except LuaError (Chunk × List Nat) :=
  match readHeader l with
  | .error e => .error e
  | .ok (h, rest) =>
    match readPrototype h.endian h (rest.length + 1) rest with
    | .error e => .error e
    | .ok (p, rest2) => .ok (Chunk.mk h p, rest2)

/-! ## `write.rs`

Writers return the emitted bytes, or the `io::Error` of a failed
`try_into` (`writeLenOverflow`) / the `todo!()` panic (`panicTodo`).
The bytes a sink would retain before a failure are not modelled. -/

/-- `write_header`.  Note: the `integral_flag` byte is written for *both*
versions (`write.rs` line 71), although `read_header` only consumes it for
Lua 5.1. -/
def writeHeader (h : ChunkHeader) : List Nat :=
  LUA_SIGNATURE ++ [h.version.toNat, 0] ++
  (if h.version = Version.lua53 then DATA else []) ++
  (if h.version = Version.lua51 then
    [match h.endian with | .little => 1 | .big => 0]
  else []) ++
  [h.intBytes.toNat, h.sizeBytes.toNat, h.instBytes.toNat] ++
  (if h.version = Version.lua53 then [h.luaIntegerBytes.toNat] else []) ++
  [h.luaNumberBytes.toNat, if h.integralFlag then 1 else 0] ++
  (if h.version = Version.lua53 then
    natToBytes h.endian h.luaIntegerBytes.toNat (ofSigned h.luaIntegerBytes.toNat TEST_INT) ++
    natToBytes h.endian h.luaNumberBytes.toNat
      (match h.luaNumberBytes with | .four => F32_370_5 | .eight => F64_370_5)
  else [])

/-- `usize as i64` (`proto.code.len() as i64` and friends). -/
def lenAsI64 (n : Nat) : Int := toSigned 8 (n % 2 ^ 64)

/-- `write_lua_int`: truncate to the `int_bytes` width and emit. -/
def writeLuaInt (en : LuaEndianness) (h : ChunkHeader) (v : Int) : List Nat :=
  natToBytes en h.intBytes.toNat (ofSigned h.intBytes.toNat v)

/-- `write_lua_size_t`. -/
def writeLuaSizeT (en : LuaEndianness) (h : ChunkHeader) (v : Int) : List Nat :=
  natToBytes en h.sizeBytes.toNat (ofSigned h.sizeBytes.toNat v)

/-- `write_lua_integer`. -/
def writeLuaInteger (en : LuaEndianness) (h : ChunkHeader) (v : Int) : List Nat :=
  natToBytes en h.luaIntegerBytes.toNat (ofSigned h.luaIntegerBytes.toNat v)

/-- `write_lua_number`: emit the bit pattern; a 4-byte target goes through
the `as f32` narrowing cast. -/
def writeLuaNumber (en : LuaEndianness) (h : ChunkHeader) (bits : Nat) : List Nat :=
  match h.luaNumberBytes with
  | .four => natToBytes en 4 (narrow64to32 bits)
  | .eight => natToBytes en 8 bits

/-- `write_lua_instruction`: truncate to `inst_bytes` and emit. -/
def writeLuaInstruction (en : LuaEndianness) (h : ChunkHeader) (v : Nat) : List Nat :=
  natToBytes en h.instBytes.toNat v

/-- `write_lua_string_51`: `size_t` length then the raw bytes; fails when
the length does not fit `i64`. -/
def writeLuaString51 (en : LuaEndianness) (h : ChunkHeader) (bytes : List Nat) :
    Except LuaError (List Nat) :=
  if bytes.length < 2 ^ 63 then
    .ok (writeLuaSizeT en h bytes.length ++ bytes)
  else .error .writeLenOverflow

/-- `write_lua_string_52`: one length byte when `len < 0xFF`, else the
`0xFF` escape followed by a `size_t` length (note: the source compares the
raw length, not `len + 1`, against `0xFF`). -/
def writeLuaString52 (en : LuaEndianness) (h : ChunkHeader) (bytes : List Nat) :
    Except LuaError (List Nat) :=
  if bytes.length < 2 ^ 63 then
    if bytes.length < 0xFF then .ok (bytes.length :: bytes)
    else .ok (0xFF :: writeLuaSizeT en h bytes.length ++ bytes)
  else .error .writeLenOverflow

/-- `write_lua_string`: version dispatch. -/
def writeLuaString (en : LuaEndianness) (h : ChunkHeader) (bytes : List Nat) :
    Except LuaError (List Nat) :=
  match h.version with
  | .lua51 => writeLuaString51 en h bytes
  | .lua53 => writeLuaString52 en h bytes

/-- One constant-pool entry of `write_prototype51`: the tag byte (strings
pick `0x14` when `len >= 0xFF`, else `0x04`) and the payload. -/
def writeConstant (en : LuaEndianness) (h : ChunkHeader) :
    Constant → Except LuaError (List Nat)
  | .nil => .ok [0x00]
  | .boolean v => .ok [0x01, if v then 1 else 0]
  | .number v => .ok (0x03 :: writeLuaNumber en h v)
  | .integer v => .ok (0x13 :: writeLuaInteger en h v)
  | .string b => do
    let sb ← writeLuaString en h b
    .ok ((if b.length ≥ 0xFF then 0x14 else 0x04) :: sb)

/-- The constant-pool loop of `write_prototype51` (without the count). -/
def writeConstantList (en : LuaEndianness) (h : ChunkHeader) :
    List Constant → Except LuaError (List Nat)
  | [] => .ok []
  | c :: cs => do
    let b ← writeConstant en h c
    let bs ← writeConstantList en h cs
    .ok (b ++ bs)

/-- One localvar record of `write_lua_debug`. -/
def writeLocalVar (en : LuaEndianness) (h : ChunkHeader) (v : LuaDebugLocalVar) :
    Except LuaError (List Nat) := do
  let nb ← writeLuaString en h v.name
  .ok (nb ++ writeLuaInt en h v.startPc ++ writeLuaInt en h v.endPc)

/-- The localvar loop of `write_lua_debug` (without the count). -/
def writeLocalVarList (en : LuaEndianness) (h : ChunkHeader) :
    List LuaDebugLocalVar → Except LuaError (List Nat)
  | [] => .ok []
  | v :: vs => do
    let b ← writeLocalVar en h v
    let bs ← writeLocalVarList en h vs
    .ok (b ++ bs)

/-- The upvalue-name loop of `write_lua_debug` (without the count). -/
def writeNameList (en : LuaEndianness) (h : ChunkHeader) :
    List (List Nat) → Except LuaError (List Nat)
  | [] => .ok []
  | v :: vs => do
    let b ← writeLuaString en h v
    let bs ← writeNameList en h vs
    .ok (b ++ bs)

/-- `write_lua_debug`. -/
def writeLuaDebug (en : LuaEndianness) (h : ChunkHeader) (d : LuaDebug) :
    Except LuaError (List Nat) := do
  let lv ← writeLocalVarList en h d.localvars
  let uv ← writeNameList en h d.upvalues
  .ok (writeLuaInt en h (lenAsI64 d.lineinfo.length) ++
    (d.lineinfo.map (writeLuaInt en h)).flatten ++
    writeLuaInt en h (lenAsI64 d.localvars.length) ++ lv ++
    writeLuaInt en h (lenAsI64 d.upvalues.length) ++ uv)

mutual

/-- `write_prototype51`.  Field order: source, lines, the four byte-wide
fields, code, constants, child prototypes, debug; `proto.upvalues` is
never consulted, only `nups`. -/
def writeProto51 (en : LuaEndianness) (h : ChunkHeader) :
    Prototype → Except LuaError (List Nat)
  | .mk source lineDefined lastLineDefined numParams isVararg maxStackSize
      code constants _upvalues nups protos debug => do
    let sb ← writeLuaString en h source
    let cb ← writeConstantList en h constants
    let pb ← writeProto51List en h protos
    let db ← writeLuaDebug en h debug
    .ok (sb ++ writeLuaInt en h lineDefined ++ writeLuaInt en h lastLineDefined ++
      [nups % 256, numParams % 256, isVararg % 256, maxStackSize % 256] ++
      writeLuaInt en h (lenAsI64 code.length) ++
      (code.map (writeLuaInstruction en h)).flatten ++
      writeLuaInt en h (lenAsI64 constants.length) ++ cb ++
      writeLuaInt en h (lenAsI64 protos.length) ++ pb ++ db)

/-- The child-prototype loop of `write_prototype51` (without the count). -/
def writeProto51List (en : LuaEndianness) (h : ChunkHeader) :
    List Prototype → Except LuaError (List Nat)
  | [] => .ok []
  | p :: ps => do
    let b ← writeProto51 en h p
    let bs ← writeProto51List en h ps
    .ok (b ++ bs)

end

/-- `write_prototype53` is `todo!()`. -/
def writeProto53 (_en : LuaEndianness) (_h : ChunkHeader) (_p : Prototype) :
    Except LuaError (List Nat) :=
  .error .panicTodo

/-- `write_prototype`: version dispatch. -/
def writePrototype (en : LuaEndianness) (h : ChunkHeader) (p : Prototype) :
    Except LuaError (List Nat) :=
  match h.version with
  | .lua51 => writeProto51 en h p
  | .lua53 => writeProto53 en h p

/-- `write_chunk`: the header bytes followed by the root prototype at the
header's byte order. -/
def writeChunk (c : Chunk) : Except LuaError (List Nat) := do
  let pb ← writePrototype c.header.endian c.header c.proto
  .ok (writeHeader c.header ++ pb)

/-! ## Validity

`validChunk` formalizes "validly constructed" for the round-trip claim:
every integer field, count and string length fits the signed range of its
declared width, the byte-wide fields fit `u8`, numbers are stored at width
8 and are not NaN (a NaN never compares equal to itself, so a chunk
holding one is not round-trippable up to the source's `PartialEq`), the
revision-A-only invariants hold (`lua_integer_bytes` equal to the reader's
fixed default 8, empty `upvalues` lists, which revision A never encodes). -/

/-- `v` is representable as a signed integer of width `w`. -/
def fitsSigned (w : ValueSize) (v : Int) : Bool :=
  decide (-(2 ^ (8 * w.toNat - 1)) ≤ v) && decide (v < 2 ^ (8 * w.toNat - 1))

/-- A sequence count representable as a positive signed `w`-wide integer. -/
def countOk (w : ValueSize) (n : Nat) : Bool := decide (n < 2 ^ (8 * w.toNat - 1))

/-- A string length representable at the chunk's `size_t` width. -/
def stringOk (h : ChunkHeader) (s : List Nat) : Bool := countOk h.sizeBytes s.length

/-- The NaN bit patterns of `f64`. -/
def isNan64 (b : Nat) : Bool :=
  decide (b / 2 ^ 52 % 2 ^ 11 = 2047) && decide (b % 2 ^ 52 ≠ 0)

/-- An instruction representable at the chunk's instruction width. -/
def instOk (h : ChunkHeader) (i : Nat) : Bool :=
  decide (i < 2 ^ (8 * h.instBytes.toNat))

/-- A `u8` field. -/
def u8Ok (n : Nat) : Bool := decide (n < 256)

/-- Validity of one constant-pool entry. -/
def constantOk (h : ChunkHeader) : Constant → Bool
  | .nil => true
  | .boolean _ => true
  | .number bits =>
    h.luaNumberBytes == ValueSize.eight && decide (bits < 2 ^ 64) && !(isNan64 bits)
  | .integer v => fitsSigned h.luaIntegerBytes v
  | .string s => stringOk h s

/-- Validity of one localvar debug record. -/
def localVarOk (h : ChunkHeader) (v : LuaDebugLocalVar) : Bool :=
  stringOk h v.name && fitsSigned h.intBytes v.startPc && fitsSigned h.intBytes v.endPc

/-- Validity of a debug table. -/
def debugOk (h : ChunkHeader) (d : LuaDebug) : Bool :=
  countOk h.intBytes d.lineinfo.length && d.lineinfo.all (fitsSigned h.intBytes) &&
  countOk h.intBytes d.localvars.length && d.localvars.all (localVarOk h) &&
  countOk h.intBytes d.upvalues.length && d.upvalues.all (stringOk h)

mutual

/-- Validity of a prototype tree (see the section comment). -/
def protoOk (h : ChunkHeader) : Prototype → Bool
  | .mk source lineDefined lastLineDefined numParams isVararg maxStackSize
      code constants upvalues nups protos debug =>
    stringOk h source && fitsSigned h.intBytes lineDefined &&
    fitsSigned h.intBytes lastLineDefined &&
    u8Ok numParams && u8Ok isVararg && u8Ok maxStackSize && u8Ok nups &&
    countOk h.intBytes code.length && code.all (instOk h) &&
    countOk h.intBytes constants.length && constants.all (constantOk h) &&
    upvalues.isEmpty &&
    countOk h.intBytes protos.length && protoListOk h protos &&
    debugOk h debug

/-- Validity of each prototype in a list. -/
def protoListOk (h : ChunkHeader) : List Prototype → Bool
  | [] => true
  | p :: ps => protoOk h p && protoListOk h ps

end

/-- Validity of a whole chunk, for the revision-A round trip. -/
def validChunk (c : Chunk) : Bool :=
  c.header.version == Version.lua51 &&
  c.header.luaIntegerBytes == ValueSize.eight &&
  protoOk c.header c.proto

mutual

/-- Every node of the prototype tree has an empty `upvalues` list. -/
def noUpvalues : Prototype → Bool
  | .mk _ _ _ _ _ _ _ _ upvalues _ protos _ =>
    upvalues.isEmpty && noUpvaluesList protos

/-- `noUpvalues` on each element. -/
def noUpvaluesList : List Prototype → Bool
  | [] => true
  | p :: ps => noUpvalues p && noUpvaluesList ps

end

mutual

/-- Replace every `upvalues` list in the tree by the empty list. -/
def eraseUpvalues : Prototype → Prototype
  | .mk source lineDefined lastLineDefined numParams isVararg maxStackSize
      code constants _upvalues nups protos debug =>
    Prototype.mk source lineDefined lastLineDefined numParams isVararg
      maxStackSize code constants [] nups (eraseUpvaluesList protos) debug

/-- `eraseUpvalues` on each element. -/
def eraseUpvaluesList : List Prototype → List Prototype
  | [] => []
  | p :: ps => eraseUpvalues p :: eraseUpvaluesList ps

end

mutual

/-- Nesting depth of a prototype tree (at least 1). -/
def protoDepth : Prototype → Nat
  | .mk _ _ _ _ _ _ _ _ _ _ protos _ => 1 + protoListDepth protos

/-- Maximum depth over a list of prototypes. -/
def protoListDepth : List Prototype → Nat
  | [] => 0
  | p :: ps => max (protoDepth p) (protoListDepth ps)

end

/-! ## Concrete fixtures for counterexamples and witnesses -/

/-- An empty debug table. -/
def emptyDebug : LuaDebug := LuaDebug.mk [] [] []

/-- A minimal prototype (all fields empty or zero). -/
def trivialProto : Prototype :=
  Prototype.mk [] 0 0 0 0 0 [] [] [] 0 [] emptyDebug

/-- A Lua 5.3 header: big-endian, 4-byte int/size_t/instruction, 8-byte
integer and number. -/
def h53 : ChunkHeader :=
  ChunkHeader.mk Version.lua53 LuaEndianness.big ValueSize.four ValueSize.four
    ValueSize.four ValueSize.eight ValueSize.eight false

/-- A Lua 5.3 chunk (revision B) with a trivial root prototype. -/
def c53chunk : Chunk := Chunk.mk h53 trivialProto

/-- A Lua 5.1 header: big-endian, 4-byte int/size_t/instruction, 8-byte
integer and number, non-integral. -/
def h51 : ChunkHeader :=
  ChunkHeader.mk Version.lua51 LuaEndianness.big ValueSize.four ValueSize.four
    ValueSize.four ValueSize.eight ValueSize.eight false

/-- A byte stream that is a valid revision-B (Lua 5.3) header up to the
sentinels, whose integer sentinel is stored big-endian and whose *float
sentinel stores `-370.5`* (bits `0xC077280000000000`) — a corrupted float
sentinel deviating from 370.5 by 741. -/
def c4bytes : List Nat :=
  LUA_SIGNATURE ++ [0x53, 0] ++ DATA ++ [4, 4, 4, 8, 8] ++
  [0, 0, 0, 0, 0, 0, 0x56, 0x78] ++ [0xC0, 0x77, 0x28, 0, 0, 0, 0, 0]

/-- The header `read_header` produces for `c4bytes`. -/
def c4header : ChunkHeader :=
  ChunkHeader.mk Version.lua53 LuaEndianness.big ValueSize.four ValueSize.four
    ValueSize.four ValueSize.eight ValueSize.eight false

/-- A byte stream that is a valid revision-B (Lua 5.3) header with
`integer_bytes = 4` whose sentinel integer `0x5678` and sentinel float
`370.5` are both stored little-endian (exactly what `write_header` emits
for such a header, minus its stray integral-flag byte). -/
def c7bytes : List Nat :=
  LUA_SIGNATURE ++ [0x53, 0] ++ DATA ++ [4, 4, 4, 4, 8] ++
  [0x78, 0x56, 0, 0] ++ [0, 0, 0, 0, 0, 0x28, 0x77, 0x40]

/-- A complete revision-A (Lua 5.1) chunk byte stream, big-endian, whose
single constant-pool entry carries tag `0x13` followed by an 8-byte
integer payload of 5. -/
def c5bytes : List Nat :=
  LUA_SIGNATURE ++ [0x51, 0, 0] ++ [4, 4, 4, 8, 0] ++
  -- root prototype: absent source, lines 0/0, nups/params/vararg/stack 0
  [0, 0, 0, 0] ++ [0, 0, 0, 0] ++ [0, 0, 0, 0] ++ [0, 0, 0, 0] ++
  -- code count 0; constant count 1; the 0x13 constant; proto count 0
  [0, 0, 0, 0] ++ [0, 0, 0, 1] ++ [0x13, 0, 0, 0, 0, 0, 0, 0, 5] ++
  [0, 0, 0, 0] ++
  -- debug: three empty vectors
  [0, 0, 0, 0] ++ [0, 0, 0, 0] ++ [0, 0, 0, 0]

/-- The chunk `read_chunk` produces for `c5bytes`. -/
def c5chunk : Chunk :=
  Chunk.mk h51
    (Prototype.mk [] 0 0 0 0 0 [] [Constant.integer 5] [] 0 [] emptyDebug)

/-- A small valid revision-A chunk exercising nested prototypes, every
constant variant, and debug info (little-endian). -/
def c1chunk : Chunk :=
  Chunk.mk
    (ChunkHeader.mk Version.lua51 LuaEndianness.little ValueSize.four
      ValueSize.four ValueSize.four ValueSize.eight ValueSize.eight false)
    (Prototype.mk [120, 0] 1 2 0 2 2 [5, 6]
      [Constant.nil, Constant.boolean true, Constant.number F64_370_5,
        Constant.integer (-3), Constant.string [97]]
      [] 1
      [Prototype.mk [] 3 4 1 0 1 [7] [Constant.string [98, 99]] [] 0 []
        (LuaDebug.mk [3] [] [])]
      (LuaDebug.mk [1, 2] [LuaDebugLocalVar.mk [97] 0 1] [[98]]))

/-- A prototype whose `upvalues` lists are populated (never encoded by
revision A). -/
def c9proto : Prototype :=
  Prototype.mk [] 0 0 0 0 0 [] [] [Upvalue.outer 1, Upvalue.stack 2] 2
    [Prototype.mk [] 0 0 0 0 0 [] [] [Upvalue.stack 5] 1 [] emptyDebug]
    emptyDebug

/-- A revision-A byte stream of a trivial prototype (no header), for the
reader part of the C9 witness. -/
def c9bytes : List Nat :=
  [0, 0, 0, 0] ++ [0, 0, 0, 0] ++ [0, 0, 0, 0] ++ [0, 0, 0, 0] ++
  [0, 0, 0, 0] ++ [0, 0, 0, 0] ++ [0, 0, 0, 0] ++
  [0, 0, 0, 0] ++ [0, 0, 0, 0] ++ [0, 0, 0, 0]

/-- Generic fold of a fallible per-element writer: the common shape of the
element loops in `write_prototype51` / `write_lua_debug`. -/
def writeList (g : α → Except LuaError (List Nat)) : List α → Except LuaError (List Nat)
  | [] => .ok []
  | x :: xs => do
    let b ← g x
    let bs ← writeList g xs
    .ok (b ++ bs)

/-! ## Run lemmas for the reader monad -/

/-- Unfold one `bind` of the reader monad. -/
theorem bind_run (m : M α) (f : α → M β) (l : List Nat) :
    (m >>= f) l =
      match m l with
      | .error e => .error e
      | .ok (a, r) => f a r := rfl

/-- Unfold `pure`. -/
theorem pure_run (a : α) (l : List Nat) : (pure a : M α) l = .ok (a, l) := rfl

/-- Unfold `mfail`. -/
theorem mfail_run (e : LuaError) (l : List Nat) : (mfail e : M α) l = .error e := rfl

/-- `readU8` on a nonempty stream. -/
theorem readU8_cons (b : Nat) (l : List Nat) : readU8 (b :: l) = .ok (b, l) := rfl

/-- `readN` consumes exactly the prefix it was asked for. -/
theorem readN_append (bs rest : List Nat) :
    readN bs.length (bs ++ rest) = .ok (bs, rest) := by
  induction bs with
  | nil => rfl
  | cons b bs ih => simp [readN, List.cons_append, ih]

/-! ## Byte-level encode/decode lemmas -/

/-- `natToBytesBE` always emits exactly `w` bytes. -/
theorem natToBytesBE_length (w n : Nat) : (natToBytesBE w n).length = w := by
  induction w generalizing n with
  | zero => rfl
  | succ w ih => simp [natToBytesBE, ih]

/-- `natToBytes` always emits exactly `w` bytes. -/
theorem natToBytes_length (en : LuaEndianness) (w n : Nat) :
    (natToBytes en w n).length = w := by
  cases en <;> simp [natToBytes, natToBytesBE_length]

/-- Big-endian value of a concatenation. -/
theorem beNat_append (xs ys : List Nat) :
    beNat (xs ++ ys) = beNat xs * 256 ^ ys.length + beNat ys := by
  induction xs with
  | nil => simp [beNat]
  | cons x xs ih =>
    simp [beNat, ih, List.length_append, pow_add]
    ring

/-- Decoding the big-endian encoding recovers the value modulo `256 ^ w`. -/
theorem beNat_natToBytesBE (w n : Nat) : beNat (natToBytesBE w n) = n % 256 ^ w := by
  induction w generalizing n with
  | zero => simp [natToBytesBE, beNat, Nat.mod_one]
  | succ w ih =>
    have hm : n % 256 ^ (w + 1) = n % 256 + 256 * (n / 256 % 256 ^ w) := by
      have : (256 : Nat) ^ (w + 1) = 256 * 256 ^ w := by ring
      rw [this, Nat.mod_mul]
    simp [natToBytesBE, beNat_append, ih, beNat, hm]
    ring

/-- Decoding at the byte order used for encoding recovers `n % 256 ^ w`. -/
theorem natFromBytes_natToBytes (en : LuaEndianness) (w n : Nat) :
    natFromBytes en (natToBytes en w n) = n % 256 ^ w := by
  cases en <;> simp [natFromBytes, natToBytes, beNat_natToBytesBE]

/-- `256 ^ w` as a power of two. -/
theorem pow256_eq (w : Nat) : 256 ^ w = 2 ^ (8 * w) := by
  rw [pow_mul]
  norm_num

/-- The two's-complement pattern is within range. -/
theorem ofSigned_lt (w : Nat) (v : Int) : ofSigned w v < 2 ^ (8 * w) := by
  have h2 : (0 : Int) < 2 ^ (8 * w) := by positivity
  have := Int.emod_lt_of_pos v h2
  have h0 := Int.emod_nonneg v (ne_of_gt h2)
  have hcast : ((2 : Int) ^ (8 * w)) = ((2 ^ (8 * w) : Nat) : Int) := by push_cast; ring
  unfold ofSigned
  omega

/-- Round trip of the two's-complement encoding at either width. -/
theorem toSigned_ofSigned (w : ValueSize) (v : Int)
    (h1 : -(2 ^ (8 * w.toNat - 1)) ≤ v) (h2 : v < 2 ^ (8 * w.toNat - 1)) :
    toSigned w.toNat (ofSigned w.toNat v) = v := by
  cases w <;>
  · simp only [ValueSize.toNat] at *
    norm_num at *
    unfold toSigned ofSigned
    norm_num
    split_ifs <;> omega

/-- `readRaw` undoes `natToBytes` for in-range values. -/
theorem readRaw_rt (en : LuaEndianness) (w : ValueSize) (n : Nat) (rest : List Nat)
    (hn : n < 2 ^ (8 * w.toNat)) :
    readRaw en w (natToBytes en w.toNat n ++ rest) = .ok (n, rest) := by
  unfold readRaw
  rw [bind_run]
  have hlen : w.toNat = (natToBytes en w.toNat n).length := (natToBytes_length en _ n).symm
  nth_rewrite 1 [hlen]
  rw [readN_append]
  simp [pure_run, natFromBytes_natToBytes, pow256_eq, Nat.mod_eq_of_lt hn]

/-- Eliminate one successful `bind`. -/
theorem bind_ok {m : M α} {f : α → M β} {l r : List Nat} {a : α}
    (hm : m l = .ok (a, r)) : (m >>= f) l = f a r := by
  show (match m l with
    | Except.error e => Except.error e
    | Except.ok (a, l2) => f a l2) = f a r
  rw [hm]

/-- Propagate one failing `bind`. -/
theorem bind_err {m : M α} {f : α → M β} {l : List Nat} {e : LuaError}
    (hm : m l = .error e) : (m >>= f) l = .error e := by
  show (match m l with
    | Except.error e => Except.error e
    | Except.ok (a, l2) => f a l2) = Except.error e
  rw [hm]

/-! ## Round trips of the width-dispatched primitives -/

/-- `read_lua_int` undoes `write_lua_int` for values fitting the width. -/
theorem readLuaInt_rt (en : LuaEndianness) (h : ChunkHeader) (v : Int)
    (rest : List Nat) (hfits : fitsSigned h.intBytes v = true) :
    readLuaInt en h (writeLuaInt en h v ++ rest) = .ok (v, rest) := by
  simp only [fitsSigned, Bool.and_eq_true, decide_eq_true_eq] at hfits
  unfold readLuaInt writeLuaInt
  rw [bind_ok (readRaw_rt en _ _ rest (ofSigned_lt _ v))]
  rw [toSigned_ofSigned h.intBytes v hfits.1 hfits.2, pure_run]

/-- `read_lua_size_t` undoes `write_lua_size_t`. -/
theorem readLuaSizeT_rt (en : LuaEndianness) (h : ChunkHeader) (v : Int)
    (rest : List Nat) (hfits : fitsSigned h.sizeBytes v = true) :
    readLuaSizeT en h (writeLuaSizeT en h v ++ rest) = .ok (v, rest) := by
  simp only [fitsSigned, Bool.and_eq_true, decide_eq_true_eq] at hfits
  unfold readLuaSizeT writeLuaSizeT
  rw [bind_ok (readRaw_rt en _ _ rest (ofSigned_lt _ v))]
  rw [toSigned_ofSigned h.sizeBytes v hfits.1 hfits.2, pure_run]

/-- `read_lua_integer` undoes `write_lua_integer`. -/
theorem readLuaInteger_rt (en : LuaEndianness) (h : ChunkHeader) (v : Int)
    (rest : List Nat) (hfits : fitsSigned h.luaIntegerBytes v = true) :
    readLuaInteger en h (writeLuaInteger en h v ++ rest) = .ok (v, rest) := by
  simp only [fitsSigned, Bool.and_eq_true, decide_eq_true_eq] at hfits
  unfold readLuaInteger writeLuaInteger
  rw [bind_ok (readRaw_rt en _ _ rest (ofSigned_lt _ v))]
  rw [toSigned_ofSigned h.luaIntegerBytes v hfits.1 hfits.2, pure_run]

/-- `read_lua_instruction` undoes `write_lua_instruction` for values
fitting the instruction width. -/
theorem readLuaInstruction_rt (en : LuaEndianness) (h : ChunkHeader) (n : Nat)
    (rest : List Nat) (hn : instOk h n = true) :
    readLuaInstruction en h (writeLuaInstruction en h n ++ rest) = .ok (n, rest) := by
  simp only [instOk, decide_eq_true_eq] at hn
  unfold readLuaInstruction writeLuaInstruction
  exact readRaw_rt en _ _ rest hn

/-- `read_lua_number` undoes `write_lua_number` at number width 8. -/
theorem readLuaNumber_rt (en : LuaEndianness) (h : ChunkHeader) (bits : Nat)
    (rest : List Nat) (h8 : h.luaNumberBytes = ValueSize.eight)
    (hb : bits < 2 ^ 64) :
    readLuaNumber en h (writeLuaNumber en h bits ++ rest) = .ok (bits, rest) := by
  unfold readLuaNumber writeLuaNumber
  rw [h8]
  exact readRaw_rt en .eight bits rest hb

/-- A count below `2 ^ 63` survives the `usize as i64` cast. -/
theorem lenAsI64_eq (n : Nat) (hn : n < 2 ^ 63) : lenAsI64 n = (n : Int) := by
  unfold lenAsI64 toSigned
  have hlt : n < 2 ^ 64 := lt_trans hn (by norm_num)
  rw [Nat.mod_eq_of_lt hlt]
  norm_num at hn ⊢
  omega

/-- A valid count is below `2 ^ 63` at either width. -/
theorem countOk_lt (w : ValueSize) (n : Nat) (hc : countOk w n = true) :
    n < 2 ^ 63 := by
  simp only [countOk, decide_eq_true_eq] at hc
  cases w <;> simp only [ValueSize.toNat] at hc <;> norm_num at hc <;> omega

/-- A valid count fits the signed width. -/
theorem countOk_fitsSigned (w : ValueSize) (n : Nat) (hc : countOk w n = true) :
    fitsSigned w (n : Int) = true := by
  simp only [countOk, decide_eq_true_eq] at hc
  simp only [fitsSigned, Bool.and_eq_true, decide_eq_true_eq]
  cases w <;> simp only [ValueSize.toNat] at hc ⊢ <;> norm_num at hc ⊢ <;> omega

/-! ## Round trips of strings, vectors, constants, debug -/

/-- Inversion of `write_lua_string` for revision A: it emits the `size_t`
length then the raw bytes. -/
theorem writeLuaString_ok (en : LuaEndianness) (h : ChunkHeader) (s : List Nat)
    (hv : h.version = Version.lua51) (hs : stringOk h s = true) :
    writeLuaString en h s = .ok (writeLuaSizeT en h (s.length : Int) ++ s) := by
  have h63 : s.length < 2 ^ 63 := countOk_lt h.sizeBytes s.length hs
  unfold writeLuaString
  rw [hv]
  unfold writeLuaString51
  rw [if_pos h63]

/-- `read_lua_string` (revision A) undoes the writer. -/
theorem readLuaString_rt (en : LuaEndianness) (h : ChunkHeader) (s : List Nat)
    (rest : List Nat) (hv : h.version = Version.lua51) (hs : stringOk h s = true) :
    readLuaString en h (writeLuaSizeT en h (s.length : Int) ++ (s ++ rest)) =
      .ok (s, rest) := by
  have hfits : fitsSigned h.sizeBytes (s.length : Int) = true :=
    countOk_fitsSigned h.sizeBytes s.length hs
  unfold readLuaString
  rw [hv]
  show readLuaString51 en h _ = _
  unfold readLuaString51
  rw [bind_ok (readLuaSizeT_rt en h _ _ hfits)]
  cases s with
  | nil => simp [pure_run]
  | cons b bs =>
    rw [if_neg (by simp only [List.length_cons]; push_cast; omega),
      if_neg (by simp only [List.length_cons]; push_cast; omega)]
    have hh : ((b :: bs).length : Int).toNat = (b :: bs).length := Int.toNat_natCast _
    rw [hh, readN_append]

/-- `Except` bind on a success. -/
theorem except_bind_ok {α β : Type} (a : α) (f : α → Except LuaError β) :
    (Except.ok a >>= f) = f a := rfl

/-- `Except` bind on a failure. -/
theorem except_bind_err {α β : Type} (e : LuaError) (f : α → Except LuaError β) :
    ((Except.error e : Except LuaError α) >>= f) = Except.error e := rfl

/-- Inversion of `writeList`: the output is the concatenation of one
successful encoding per element. -/
theorem writeList_ok_shape {g : α → Except LuaError (List Nat)} :
    ∀ {xs : List α} {bs : List Nat}, writeList g xs = .ok bs →
      ∃ bss : List (List Nat), bs = bss.flatten ∧ bss.length = xs.length ∧
        ∀ p ∈ xs.zip bss, g p.1 = .ok p.2 := by
  intro xs
  induction xs with
  | nil =>
    intro bs hw
    refine ⟨[], ?_, rfl, by simp⟩
    simp only [writeList] at hw
    cases hw
    rfl
  | cons x xs ih =>
    intro bs hw
    simp only [writeList] at hw
    cases hgx : g x with
    | error e => rw [hgx, except_bind_err] at hw; cases hw
    | ok b =>
      rw [hgx, except_bind_ok] at hw
      cases hrec : writeList g xs with
      | error e =>
        rw [hrec, except_bind_err] at hw
        cases hw
      | ok bs2 =>
        rw [hrec, except_bind_ok] at hw
        cases hw
        obtain ⟨bss2, rfl, hlen, hmem⟩ := ih hrec
        refine ⟨b :: bss2, by simp, by simp [hlen], ?_⟩
        intro p hp
        simp only [List.zip_cons_cons, List.mem_cons] at hp
        rcases hp with rfl | hp
        · exact hgx
        · exact hmem p hp

/-- `writeList` of an infallible encoder is the flattened map. -/
theorem writeList_map (enc : α → List Nat) (xs : List α) :
    writeList (fun x => (.ok (enc x) : Except LuaError (List Nat))) xs =
      .ok ((xs.map enc).flatten) := by
  induction xs with
  | nil => rfl
  | cons x xs ih =>
    simp only [writeList, ih]
    rfl

/-- The constant loop is `writeList` of the element writer. -/
theorem writeConstantList_eq (en : LuaEndianness) (h : ChunkHeader)
    (cs : List Constant) :
    writeConstantList en h cs = writeList (writeConstant en h) cs := by
  induction cs with
  | nil => rfl
  | cons c cs ih => simp only [writeConstantList, writeList, ih]

/-- The localvar loop is `writeList` of the element writer. -/
theorem writeLocalVarList_eq (en : LuaEndianness) (h : ChunkHeader)
    (vs : List LuaDebugLocalVar) :
    writeLocalVarList en h vs = writeList (writeLocalVar en h) vs := by
  induction vs with
  | nil => rfl
  | cons v vs ih => simp only [writeLocalVarList, writeList, ih]

/-- The upvalue-name loop is `writeList` of the string writer. -/
theorem writeNameList_eq (en : LuaEndianness) (h : ChunkHeader)
    (vs : List (List Nat)) :
    writeNameList en h vs = writeList (writeLuaString en h) vs := by
  induction vs with
  | nil => rfl
  | cons v vs ih => simp only [writeNameList, writeList, ih]

/-- The child-prototype loop is `writeList` of `writeProto51`. -/
theorem writeProto51List_eq (en : LuaEndianness) (h : ChunkHeader)
    (ps : List Prototype) :
    writeProto51List en h ps = writeList (writeProto51 en h) ps := by
  induction ps with
  | nil => rfl
  | cons p ps ih => simp only [writeProto51List, writeList, ih]

/-- The element loop of `read_lua_vector` undoes `writeList`, given a
round trip for each element. -/
theorem readLuaVectorAux_rt (f : M α) (g : α → Except LuaError (List Nat)) :
    ∀ (xs : List α) (bs rest : List Nat),
      (∀ x ∈ xs, ∀ b r, g x = .ok b → f (b ++ r) = .ok (x, r)) →
      writeList g xs = .ok bs →
      readLuaVectorAux f xs.length (bs ++ rest) = .ok (xs, rest) := by
  intro xs
  induction xs with
  | nil =>
    intro bs rest _ hw
    simp only [writeList] at hw
    cases hw
    rfl
  | cons x xs ih =>
    intro bs rest hfg hw
    simp only [writeList] at hw
    cases hgx : g x with
    | error e => rw [hgx, except_bind_err] at hw; cases hw
    | ok b =>
      rw [hgx, except_bind_ok] at hw
      cases hrec : writeList g xs with
      | error e => rw [hrec, except_bind_err] at hw; cases hw
      | ok bs2 =>
        rw [hrec, except_bind_ok] at hw
        cases hw
        show readLuaVectorAux f (xs.length + 1) ((b ++ bs2) ++ rest) = _
        unfold readLuaVectorAux
        rw [List.append_assoc,
          bind_ok (hfg x (List.mem_cons_self x xs) b (bs2 ++ rest) hgx),
          bind_ok (ih bs2 rest (fun y hy => hfg y (List.mem_cons_of_mem x hy)) hrec),
          pure_run]

/-- `read_lua_vector` undoes a count-prefixed `writeList`, given a round
trip for each element. -/
theorem readLuaVector_rt (en : LuaEndianness) (h : ChunkHeader) (f : M α)
    (g : α → Except LuaError (List Nat)) (xs : List α) (bs rest : List Nat)
    (hcount : countOk h.intBytes xs.length = true)
    (hws : writeList g xs = .ok bs)
    (hfg : ∀ x ∈ xs, ∀ b r, g x = .ok b → f (b ++ r) = .ok (x, r)) :
    readLuaVector en h f (writeLuaInt en h (lenAsI64 xs.length) ++ (bs ++ rest)) =
      .ok (xs, rest) := by
  have h63 := countOk_lt _ _ hcount
  rw [lenAsI64_eq _ h63]
  unfold readLuaVector
  rw [bind_ok (readLuaInt_rt en h _ _ (countOk_fitsSigned _ _ hcount))]
  cases xs with
  | nil =>
    simp only [writeList] at hws
    cases hws
    simp [pure_run]
  | cons x xs =>
    rw [if_neg (by simp only [List.length_cons]; push_cast; omega),
      if_neg (by simp only [List.length_cons]; push_cast; omega)]
    rw [Int.toNat_natCast]
    exact readLuaVectorAux_rt f g (x :: xs) bs rest hfg hws

/-- A valid constant round-trips through the constant codec (revision A). -/
theorem readConstant_rt (en : LuaEndianness) (h : ChunkHeader) (c : Constant)
    (b rest : List Nat) (hv : h.version = Version.lua51)
    (hok : constantOk h c = true) (hw : writeConstant en h c = .ok b) :
    readConstant en h (b ++ rest) = .ok (c, rest) := by
  cases c with
  | nil => cases hw; rfl
  | boolean v => cases v <;> (cases hw; rfl)
  | number bits =>
    simp only [constantOk, Bool.and_eq_true, beq_iff_eq, decide_eq_true_eq] at hok
    cases hw
    show readConstant en h ((0x03 :: writeLuaNumber en h bits) ++ rest) = _
    rw [List.cons_append]
    unfold readConstant
    rw [bind_ok (readU8_cons _ _)]
    show (readLuaNumber en h >>= fun bits2 =>
      (pure (Constant.number bits2) : M Constant)) _ = _
    rw [bind_ok (readLuaNumber_rt en h bits rest hok.1.1 hok.1.2), pure_run]
  | integer v =>
    simp only [constantOk] at hok
    cases hw
    show readConstant en h ((0x13 :: writeLuaInteger en h v) ++ rest) = _
    rw [List.cons_append]
    unfold readConstant
    rw [bind_ok (readU8_cons _ _)]
    show (readLuaInteger en h >>= fun v2 =>
      (pure (Constant.integer v2) : M Constant)) _ = _
    rw [bind_ok (readLuaInteger_rt en h v rest hok), pure_run]
  | string str =>
    simp only [constantOk] at hok
    simp only [writeConstant] at hw
    rw [writeLuaString_ok en h str hv hok, except_bind_ok] at hw
    cases hw
    by_cases hlen : str.length ≥ 0xFF
    · rw [if_pos hlen, List.cons_append, List.append_assoc]
      unfold readConstant
      rw [bind_ok (readU8_cons _ _)]
      show (readLuaString en h >>= fun s2 =>
        (pure (Constant.string s2) : M Constant)) _ = _
      rw [bind_ok (readLuaString_rt en h str rest hv hok), pure_run]
    · rw [if_neg hlen, List.cons_append, List.append_assoc]
      unfold readConstant
      rw [bind_ok (readU8_cons _ _)]
      show (readLuaString en h >>= fun s2 =>
        (pure (Constant.string s2) : M Constant)) _ = _
      rw [bind_ok (readLuaString_rt en h str rest hv hok), pure_run]

/-- A valid debug table round-trips (revision A). -/
theorem readLuaDebug_rt (en : LuaEndianness) (h : ChunkHeader) (d : LuaDebug)
    (bs rest : List Nat) (hv : h.version = Version.lua51)
    (hok : debugOk h d = true) (hw : writeLuaDebug en h d = .ok bs) :
    readLuaDebug en h (bs ++ rest) = .ok (d, rest) := by
  obtain ⟨lineinfo, localvars, upvalues⟩ := d
  simp only [debugOk, Bool.and_eq_true, List.all_eq_true] at hok
  obtain ⟨⟨⟨⟨⟨hc1, hl1⟩, hc2⟩, hl2⟩, hc3⟩, hl3⟩ := hok
  have hfg1 : ∀ v ∈ lineinfo, ∀ (b r : List Nat),
      (fun v => (Except.ok (writeLuaInt en h v) : Except LuaError (List Nat))) v =
        .ok b → readLuaInt en h (b ++ r) = .ok (v, r) := by
    intro v hvmem b r hb
    cases hb
    exact readLuaInt_rt en h v r (hl1 v hvmem)
  have hfg2 : ∀ v ∈ localvars, ∀ (b r : List Nat),
      writeLocalVar en h v = .ok b →
      (do
        let name ← readLuaString en h
        let startPc ← readLuaInt en h
        let endPc ← readLuaInt en h
        pure (LuaDebugLocalVar.mk name startPc endPc) : M LuaDebugLocalVar)
        (b ++ r) = .ok (v, r) := by
    intro v hvmem b r hb
    obtain ⟨nm, sp, ep⟩ := v
    have hvo := hl2 _ hvmem
    simp only [localVarOk, Bool.and_eq_true] at hvo
    unfold writeLocalVar at hb
    simp only at hb
    rw [writeLuaString_ok en h nm hv hvo.1.1, except_bind_ok] at hb
    cases hb
    simp only [List.append_assoc]
    rw [bind_ok (readLuaString_rt en h nm _ hv hvo.1.1)]
    rw [bind_ok (readLuaInt_rt en h sp _ hvo.1.2)]
    rw [bind_ok (readLuaInt_rt en h ep _ hvo.2)]
    rw [pure_run]
  have hfg3 : ∀ v ∈ upvalues, ∀ (b r : List Nat),
      writeLuaString en h v = .ok b →
      readLuaString en h (b ++ r) = .ok (v, r) := by
    intro v hvmem b r hb
    rw [writeLuaString_ok en h v hv (hl3 v hvmem)] at hb
    cases hb
    rw [List.append_assoc]
    exact readLuaString_rt en h v r hv (hl3 v hvmem)
  unfold writeLuaDebug at hw
  cases hlv : writeLocalVarList en h localvars with
  | error e => rw [hlv, except_bind_err] at hw; cases hw
  | ok lv =>
    rw [hlv, except_bind_ok] at hw
    cases huv : writeNameList en h upvalues with
    | error e => rw [huv, except_bind_err] at hw; cases hw
    | ok uv =>
      rw [huv, except_bind_ok] at hw
      cases hw
      unfold readLuaDebug
      simp only [List.append_assoc]
      rw [bind_ok (readLuaVector_rt en h _
        (fun v => (.ok (writeLuaInt en h v) : Except LuaError (List Nat)))
        lineinfo _ _ hc1 (writeList_map _ _) hfg1)]
      rw [bind_ok (readLuaVector_rt en h _ (writeLocalVar en h) localvars _ _
        hc2 (by rw [← writeLocalVarList_eq]; exact hlv) hfg2)]
      rw [bind_ok (readLuaVector_rt en h _ (writeLuaString en h) upvalues _ _
        hc3 (by rw [← writeNameList_eq]; exact huv) hfg3)]
      rw [pure_run]

/-! ## Prototype round trip -/

/-- Validity of a prototype list gives validity of each member. -/
theorem protoListOk_mem {h : ChunkHeader} :
    ∀ {ps : List Prototype}, protoListOk h ps = true →
      ∀ q ∈ ps, protoOk h q = true := by
  intro ps
  induction ps with
  | nil => intro _ q hq; cases hq
  | cons p ps ih =>
    intro hok q hq
    simp only [protoListOk, Bool.and_eq_true] at hok
    rcases hq with _ | hq
    · exact hok.1
    · exact ih hok.2 q (by assumption)

/-- The depth of a member bounds into the list depth. -/
theorem protoDepth_le_listDepth :
    ∀ {ps : List Prototype}, ∀ q ∈ ps, protoDepth q ≤ protoListDepth ps := by
  intro ps
  induction ps with
  | nil => intro q hq; cases hq
  | cons p ps ih =>
    intro q hq
    simp only [protoListDepth]
    rcases hq with _ | hq
    · exact le_max_left _ _
    · exact le_trans (ih q (by assumption)) (le_max_right _ _)

/-- A uniform bound on member depths bounds the list depth. -/
theorem protoListDepth_le {k : Nat} :
    ∀ {ps : List Prototype}, (∀ q ∈ ps, protoDepth q ≤ k) →
      protoListDepth ps ≤ k := by
  intro ps
  induction ps with
  | nil => intro _; exact Nat.zero_le k
  | cons p ps ih =>
    intro hb
    simp only [protoListDepth, max_le_iff]
    exact ⟨hb p (List.mem_cons_self p ps),
      ih fun q hq => hb q (List.mem_cons_of_mem p hq)⟩

/-- Every prototype has positive depth. -/
theorem protoDepth_pos (p : Prototype) : 1 ≤ protoDepth p := by
  obtain ⟨_, _, _, _, _, _, _, _, _, _, protos, _⟩ := p
  simp [protoDepth]

/-- When `writeList` succeeds, each element has a successful encoding no
longer than the whole output. -/
theorem writeList_ok_mem {g : α → Except LuaError (List Nat)} :
    ∀ {xs : List α} {bs : List Nat}, writeList g xs = .ok bs →
      ∀ x ∈ xs, ∃ b, g x = .ok b ∧ b.length ≤ bs.length := by
  intro xs
  induction xs with
  | nil => intro bs _ x hx; cases hx
  | cons y xs ih =>
    intro bs hw x hx
    simp only [writeList] at hw
    cases hgy : g y with
    | error e => rw [hgy, except_bind_err] at hw; cases hw
    | ok b =>
      rw [hgy, except_bind_ok] at hw
      cases hrec : writeList g xs with
      | error e => rw [hrec, except_bind_err] at hw; cases hw
      | ok bs2 =>
        rw [hrec, except_bind_ok] at hw
        cases hw
        rcases hx with _ | hx
        · exact ⟨b, hgy, by simp⟩
        · obtain ⟨b2, hgb2, hlen⟩ := ih hrec x (by assumption)
          exact ⟨b2, hgb2, by simp; omega⟩

/-- When every element encodes, the whole list encodes. -/
theorem writeList_isOk {g : α → Except LuaError (List Nat)} :
    ∀ {xs : List α}, (∀ x ∈ xs, ∃ b, g x = .ok b) →
      ∃ bs, writeList g xs = .ok bs := by
  intro xs
  induction xs with
  | nil => intro _; exact ⟨[], rfl⟩
  | cons x xs ih =>
    intro hx
    obtain ⟨b, hb⟩ := hx x (List.mem_cons_self x xs)
    obtain ⟨bs, hbs⟩ := ih fun y hy => hx y (List.mem_cons_of_mem x hy)
    refine ⟨b ++ bs, ?_⟩
    simp only [writeList]
    rw [hb, except_bind_ok, hbs, except_bind_ok]

/-- Every valid constant encodes (revision A). -/
theorem writeConstant_isOk (en : LuaEndianness) (h : ChunkHeader) (c : Constant)
    (hv : h.version = Version.lua51) (hok : constantOk h c = true) :
    ∃ b, writeConstant en h c = .ok b := by
  cases c with
  | nil => exact ⟨_, rfl⟩
  | boolean v => exact ⟨_, rfl⟩
  | number bits => exact ⟨_, rfl⟩
  | integer v => exact ⟨_, rfl⟩
  | string s =>
    simp only [constantOk] at hok
    refine ⟨(if s.length ≥ 0xFF then 0x14 else 0x04) ::
      (writeLuaSizeT en h (s.length : Int) ++ s), ?_⟩
    simp only [writeConstant]
    rw [writeLuaString_ok en h s hv hok, except_bind_ok]

/-- Every valid localvar record encodes (revision A). -/
theorem writeLocalVar_isOk (en : LuaEndianness) (h : ChunkHeader)
    (v : LuaDebugLocalVar) (hv : h.version = Version.lua51)
    (hok : localVarOk h v = true) : ∃ b, writeLocalVar en h v = .ok b := by
  simp only [localVarOk, Bool.and_eq_true] at hok
  refine ⟨(writeLuaSizeT en h (v.name.length : Int) ++ v.name) ++
    writeLuaInt en h v.startPc ++ writeLuaInt en h v.endPc, ?_⟩
  unfold writeLocalVar
  rw [writeLuaString_ok en h v.name hv hok.1.1, except_bind_ok]

/-- Every valid debug table encodes (revision A). -/
theorem writeLuaDebug_isOk (en : LuaEndianness) (h : ChunkHeader) (d : LuaDebug)
    (hv : h.version = Version.lua51) (hok : debugOk h d = true) :
    ∃ bs, writeLuaDebug en h d = .ok bs := by
  simp only [debugOk, Bool.and_eq_true, List.all_eq_true] at hok
  obtain ⟨⟨⟨⟨⟨_, _⟩, _⟩, hl2⟩, _⟩, hl3⟩ := hok
  obtain ⟨lv, hlv⟩ : ∃ lv, writeLocalVarList en h d.localvars = .ok lv := by
    rw [writeLocalVarList_eq]
    exact writeList_isOk fun x hx => writeLocalVar_isOk en h x hv (hl2 x hx)
  obtain ⟨uv, huv⟩ : ∃ uv, writeNameList en h d.upvalues = .ok uv := by
    rw [writeNameList_eq]
    exact writeList_isOk fun x hx =>
      ⟨_, writeLuaString_ok en h x hv (hl3 x hx)⟩
  refine ⟨writeLuaInt en h (lenAsI64 d.lineinfo.length) ++
    (d.lineinfo.map (writeLuaInt en h)).flatten ++
    writeLuaInt en h (lenAsI64 d.localvars.length) ++ lv ++
    writeLuaInt en h (lenAsI64 d.upvalues.length) ++ uv, ?_⟩
  unfold writeLuaDebug
  rw [hlv, except_bind_ok, huv, except_bind_ok]

/-- Every valid prototype tree encodes (revision A). -/
theorem writeProto51_isOk (en : LuaEndianness) (h : ChunkHeader)
    (hv : h.version = Version.lua51) :
    ∀ (n : Nat) (p : Prototype), protoDepth p ≤ n → protoOk h p = true →
      ∃ bs, writeProto51 en h p = .ok bs := by
  intro n
  induction n with
  | zero =>
    intro p hd _
    exact absurd (le_trans (protoDepth_pos p) hd) (by norm_num)
  | succ n ih =>
    intro p hd hok
    obtain ⟨source, ld, lld, np, iv, mss, code, consts, ups, nups, protos, dbg⟩ := p
    simp only [protoOk, Bool.and_eq_true, List.all_eq_true] at hok
    obtain ⟨⟨⟨⟨⟨⟨⟨⟨⟨⟨⟨⟨⟨⟨h1, _⟩, _⟩, _⟩, _⟩, _⟩, _⟩, _⟩, _⟩, _⟩,
      h11⟩, _⟩, _⟩, h14⟩, h15⟩ := hok
    have hdl : protoListDepth protos ≤ n := by
      simp only [protoDepth] at hd
      omega
    obtain ⟨cb, hcb⟩ : ∃ cb, writeConstantList en h consts = .ok cb := by
      rw [writeConstantList_eq]
      exact writeList_isOk fun c hc => writeConstant_isOk en h c hv (h11 c hc)
    obtain ⟨pb, hpb⟩ : ∃ pb, writeProto51List en h protos = .ok pb := by
      rw [writeProto51List_eq]
      exact writeList_isOk fun q hq =>
        ih q (le_trans (protoDepth_le_listDepth q hq) hdl)
          (protoListOk_mem h14 q hq)
    obtain ⟨db, hdb⟩ := writeLuaDebug_isOk en h dbg hv h15
    simp only [writeProto51]
    rw [writeLuaString_ok en h source hv h1, except_bind_ok, hcb,
      except_bind_ok, hpb, except_bind_ok, hdb, except_bind_ok]
    exact ⟨_, rfl⟩

/-- A successful encoding is at least as long as the tree is deep. -/
theorem protoDepth_le_len (en : LuaEndianness) (h : ChunkHeader) :
    ∀ (n : Nat) (p : Prototype) (bs : List Nat), protoDepth p ≤ n →
      writeProto51 en h p = .ok bs → protoDepth p ≤ bs.length := by
  intro n
  induction n with
  | zero =>
    intro p bs hd _
    exact absurd (le_trans (protoDepth_pos p) hd) (by norm_num)
  | succ n ih =>
    intro p bs hd hw
    obtain ⟨source, ld, lld, np, iv, mss, code, consts, ups, nups, protos, dbg⟩ := p
    simp only [writeProto51] at hw
    cases hsb : writeLuaString en h source with
    | error e => rw [hsb, except_bind_err] at hw; cases hw
    | ok sb =>
    rw [hsb, except_bind_ok] at hw
    cases hcb : writeConstantList en h consts with
    | error e => rw [hcb, except_bind_err] at hw; cases hw
    | ok cb =>
    rw [hcb, except_bind_ok] at hw
    cases hpb : writeProto51List en h protos with
    | error e => rw [hpb, except_bind_err] at hw; cases hw
    | ok pb =>
    rw [hpb, except_bind_ok] at hw
    cases hdb : writeLuaDebug en h dbg with
    | error e => rw [hdb, except_bind_err] at hw; cases hw
    | ok db =>
    rw [hdb, except_bind_ok] at hw
    cases hw
    rw [writeProto51List_eq] at hpb
    have hmem : ∀ q ∈ protos, protoDepth q ≤ pb.length := by
      intro q hq
      obtain ⟨b, hb, hlen⟩ := writeList_ok_mem hpb q hq
      have hdq : protoDepth q ≤ n := by
        have hql := protoDepth_le_listDepth q hq
        simp only [protoDepth] at hd
        omega
      exact le_trans (ih q b hdq hb) hlen
    have hld := protoListDepth_le hmem
    simp only [protoDepth, List.length_append, List.length_cons]
    omega

/-- A valid prototype tree round-trips through the revision-A codec,
given enough fuel for its depth. -/
theorem readProto51_rt (en : LuaEndianness) (h : ChunkHeader)
    (hv : h.version = Version.lua51) :
    ∀ (fuel : Nat) (p : Prototype) (bs rest : List Nat),
      protoOk h p = true → protoDepth p ≤ fuel →
      writeProto51 en h p = .ok bs →
      readProto51 en h fuel (bs ++ rest) = .ok (p, rest) := by
  intro fuel
  induction fuel with
  | zero =>
    intro p bs rest _ hd _
    exact absurd (le_trans (protoDepth_pos p) hd) (by norm_num)
  | succ fuel ih =>
    intro p bs rest hok hd hw
    obtain ⟨source, ld, lld, np, iv, mss, code, consts, ups, nups, protos, dbg⟩ := p
    simp only [protoOk, Bool.and_eq_true, List.all_eq_true, u8Ok,
      decide_eq_true_eq, List.isEmpty_iff] at hok
    obtain ⟨⟨⟨⟨⟨⟨⟨⟨⟨⟨⟨⟨⟨⟨h1, h2⟩, h3⟩, h4⟩, h5⟩, h6⟩, h7⟩, h8⟩, h9⟩, h10⟩,
      h11⟩, h12⟩, h13⟩, h14⟩, h15⟩ := hok
    subst h12
    have hfgcode : ∀ x ∈ code, ∀ (b r : List Nat),
        (fun i => (Except.ok (writeLuaInstruction en h i) :
          Except LuaError (List Nat))) x = .ok b →
        readLuaInstruction en h (b ++ r) = .ok (x, r) := by
      intro x hx b r hb
      cases hb
      exact readLuaInstruction_rt en h x r (h9 x hx)
    have hfgconst : ∀ c ∈ consts, ∀ (b r : List Nat),
        writeConstant en h c = .ok b → readConstant en h (b ++ r) = .ok (c, r) :=
      fun c hc b r hb => readConstant_rt en h c b r hv (h11 c hc) hb
    have hfgproto : ∀ q ∈ protos, ∀ (b r : List Nat),
        writeProto51 en h q = .ok b → readProto51 en h fuel (b ++ r) = .ok (q, r) := by
      intro q hq b r hb
      have hdq : protoDepth q ≤ fuel := by
        have hql := protoDepth_le_listDepth q hq
        simp only [protoDepth] at hd
        omega
      exact ih q b r (protoListOk_mem h14 q hq) hdq hb
    simp only [writeProto51] at hw
    rw [writeLuaString_ok en h source hv h1, except_bind_ok] at hw
    cases hcb : writeConstantList en h consts with
    | error e => rw [hcb, except_bind_err] at hw; cases hw
    | ok cb =>
    rw [hcb, except_bind_ok] at hw
    cases hpb : writeProto51List en h protos with
    | error e => rw [hpb, except_bind_err] at hw; cases hw
    | ok pb =>
    rw [hpb, except_bind_ok] at hw
    cases hdb : writeLuaDebug en h dbg with
    | error e => rw [hdb, except_bind_err] at hw; cases hw
    | ok db =>
    rw [hdb, except_bind_ok] at hw
    cases hw
    rw [writeConstantList_eq] at hcb
    rw [writeProto51List_eq] at hpb
    simp only [readProto51]
    rw [Nat.mod_eq_of_lt h7, Nat.mod_eq_of_lt h4, Nat.mod_eq_of_lt h5,
      Nat.mod_eq_of_lt h6]
    simp only [List.append_assoc, List.cons_append, List.nil_append]
    rw [bind_ok (readLuaString_rt en h source _ hv h1)]
    rw [bind_ok (readLuaInt_rt en h ld _ h2)]
    rw [bind_ok (readLuaInt_rt en h lld _ h3)]
    rw [bind_ok (readU8_cons _ _), bind_ok (readU8_cons _ _),
      bind_ok (readU8_cons _ _), bind_ok (readU8_cons _ _)]
    rw [bind_ok (readLuaVector_rt en h _
      (fun i => (Except.ok (writeLuaInstruction en h i) : Except LuaError (List Nat)))
      code _ _ h8 (writeList_map _ _) hfgcode)]
    rw [bind_ok (readLuaVector_rt en h _ (writeConstant en h) consts _ _
      h10 hcb hfgconst)]
    rw [bind_ok (readLuaVector_rt en h _ (writeProto51 en h) protos _ _
      h13 hpb hfgproto)]
    rw [bind_ok (readLuaDebug_rt en h dbg _ _ hv h15 hdb)]
    rw [pure_run]

/-! ## Header and chunk round trip (revision A) -/

/-- A revision-A header (with the reader's fixed `lua_integer_bytes = 8`)
round-trips through the header codec. -/
theorem readHeader51_rt (h : ChunkHeader) (rest : List Nat)
    (hv : h.version = Version.lua51) (hi : h.luaIntegerBytes = ValueSize.eight) :
    readHeader (writeHeader h ++ rest) = .ok (h, rest) := by
  obtain ⟨ver, en, ib, sb, instb, integb, nb, flag⟩ := h
  simp only at hv hi
  subst hv
  subst hi
  cases en <;> cases ib <;> cases sb <;> cases instb <;> cases nb <;>
    cases flag <;> rfl

/-- Version dispatch of `read_prototype` for revision A. -/
theorem readPrototype_51 (en : LuaEndianness) (h : ChunkHeader) (fuel : Nat)
    (hv : h.version = Version.lua51) :
    readPrototype en h fuel = readProto51 en h fuel := by
  unfold readPrototype
  rw [hv]

/-- Version dispatch of `write_prototype` for revision A. -/
theorem writePrototype_51 (en : LuaEndianness) (h : ChunkHeader) (p : Prototype)
    (hv : h.version = Version.lua51) :
    writePrototype en h p = writeProto51 en h p := by
  unfold writePrototype
  rw [hv]

/-- A valid revision-A chunk round-trips through `write_chunk` /
`read_chunk`, leaving any trailing bytes untouched. -/
theorem readChunk_rt (c : Chunk) (rest : List Nat) (hvalid : validChunk c = true) :
    ∃ bs, writeChunk c = .ok bs ∧ readChunk (bs ++ rest) = .ok (c, rest) := by
  obtain ⟨h, p⟩ := c
  simp only [validChunk, Bool.and_eq_true, beq_iff_eq] at hvalid
  obtain ⟨⟨hv, hi⟩, hok⟩ := hvalid
  obtain ⟨pb, hpb⟩ := writeProto51_isOk h.endian h hv (protoDepth p) p le_rfl hok
  have hw : writeChunk (Chunk.mk h p) = .ok (writeHeader h ++ pb) := by
    unfold writeChunk
    simp only
    rw [writePrototype_51 h.endian h p hv, hpb, except_bind_ok]
  refine ⟨_, hw, ?_⟩
  have hdepth : protoDepth p ≤ (pb ++ rest).length + 1 := by
    have h1 := protoDepth_le_len h.endian h (protoDepth p) p pb le_rfl hpb
    simp only [List.length_append]
    omega
  unfold readChunk
  rw [List.append_assoc, readHeader51_rt h (pb ++ rest) hv hi]
  show (match readPrototype h.endian h ((pb ++ rest).length + 1) (pb ++ rest) with
    | .error e => (.error e : Except LuaError (Chunk × List Nat))
    | .ok (p2, rest2) => .ok (Chunk.mk h p2, rest2)) = .ok (Chunk.mk h p, rest)
  rw [readPrototype_51 h.endian h _ hv,
    readProto51_rt h.endian h hv _ p pb rest hok hdepth hpb]

/-! ## Inversion lemmas for successful reads -/

/-- A successful `bind` factors through a successful first component. -/
theorem bind_ok_inv {m : M α} {f : α → M β} {l : List Nat} {res : β × List Nat}
    (hb : (m >>= f) l = .ok res) :
    ∃ a r, m l = .ok (a, r) ∧ f a r = .ok res := by
  cases hm : m l with
  | error e => rw [bind_err hm] at hb; cases hb
  | ok ar =>
    obtain ⟨a, r⟩ := ar
    rw [bind_ok hm] at hb
    exact ⟨a, r, rfl, hb⟩

/-- Inversion of `pure`. -/
theorem pure_ok_inv {a p : α} {l r : List Nat}
    (hp : (pure a : M α) l = .ok (p, r)) : p = a ∧ r = l := by
  rw [pure_run] at hp
  cases hp
  exact ⟨rfl, rfl⟩

/-- Every element produced by the `read_lua_vector` loop satisfies any
property that `f`'s outputs satisfy. -/
theorem readLuaVectorAux_all {f : M α} {P : α → Prop}
    (hP : ∀ (l : List Nat) (a : α) (r : List Nat), f l = .ok (a, r) → P a) :
    ∀ (n : Nat) (l : List Nat) (as : List α) (r : List Nat),
      readLuaVectorAux f n l = .ok (as, r) → ∀ a ∈ as, P a := by
  intro n
  induction n with
  | zero =>
    intro l as r hread a ha
    obtain ⟨rfl, _⟩ := pure_ok_inv hread
    cases ha
  | succ n ih =>
    intro l as r hread a ha
    simp only [readLuaVectorAux] at hread
    obtain ⟨x, r1, hx, hrest⟩ := bind_ok_inv hread
    obtain ⟨xs, r2, hxs, hpure⟩ := bind_ok_inv hrest
    obtain ⟨rfl, _⟩ := pure_ok_inv hpure
    rcases ha with _ | ha
    · exact hP l a r1 hx
    · exact ih r1 xs r2 hxs a (by assumption)

/-- Every element produced by `read_lua_vector` satisfies any property
that `f`'s outputs satisfy. -/
theorem readLuaVector_all (en : LuaEndianness) (h : ChunkHeader) {f : M α}
    {P : α → Prop}
    (hP : ∀ (l : List Nat) (a : α) (r : List Nat), f l = .ok (a, r) → P a)
    {l : List Nat} {as : List α} {r : List Nat}
    (hread : readLuaVector en h f l = .ok (as, r)) : ∀ a ∈ as, P a := by
  unfold readLuaVector at hread
  obtain ⟨size, r1, _, hrest⟩ := bind_ok_inv hread
  by_cases h0 : size = 0
  · rw [if_pos h0] at hrest
    obtain ⟨rfl, _⟩ := pure_ok_inv hrest
    intro a ha
    cases ha
  · rw [if_neg h0] at hrest
    by_cases hneg : size < 0
    · rw [if_pos hneg] at hrest
      cases hrest
    · rw [if_neg hneg] at hrest
      exact readLuaVectorAux_all hP size.toNat r1 as r hrest

/-- Membership version of `noUpvaluesList`. -/
theorem noUpvaluesList_of_mem :
    ∀ {ps : List Prototype}, (∀ q ∈ ps, noUpvalues q = true) →
      noUpvaluesList ps = true := by
  intro ps
  induction ps with
  | nil => intro _; rfl
  | cons p ps ih =>
    intro hall
    simp only [noUpvaluesList, Bool.and_eq_true]
    exact ⟨hall p (List.mem_cons_self p ps),
      ih fun q hq => hall q (List.mem_cons_of_mem p hq)⟩

/-- Every prototype produced by `read_prototype51` has empty `upvalues`
lists throughout. -/
theorem readProto51_noUpvalues (en : LuaEndianness) (h : ChunkHeader) :
    ∀ (fuel : Nat) (l : List Nat) (p : Prototype) (r : List Nat),
      readProto51 en h fuel l = .ok (p, r) → noUpvalues p = true := by
  intro fuel
  induction fuel with
  | zero => intro l p r hread; cases hread
  | succ fuel ih =>
    intro l p r hread
    simp only [readProto51] at hread
    obtain ⟨source, r1, _, hread⟩ := bind_ok_inv hread
    obtain ⟨ld, r2, _, hread⟩ := bind_ok_inv hread
    obtain ⟨lld, r3, _, hread⟩ := bind_ok_inv hread
    obtain ⟨nups, r4, _, hread⟩ := bind_ok_inv hread
    obtain ⟨np, r5, _, hread⟩ := bind_ok_inv hread
    obtain ⟨iv, r6, _, hread⟩ := bind_ok_inv hread
    obtain ⟨mss, r7, _, hread⟩ := bind_ok_inv hread
    obtain ⟨code, r8, _, hread⟩ := bind_ok_inv hread
    obtain ⟨consts, r9, _, hread⟩ := bind_ok_inv hread
    obtain ⟨protos, r10, hprotos, hread⟩ := bind_ok_inv hread
    obtain ⟨dbg, r11, _, hread⟩ := bind_ok_inv hread
    obtain ⟨rfl, _⟩ := pure_ok_inv hread
    have hall : ∀ q ∈ protos, noUpvalues q = true :=
      readLuaVector_all en h (fun l2 a r2 ha => ih l2 a r2 ha) hprotos
    simp only [noUpvalues, List.isEmpty_nil, Bool.true_and]
    exact noUpvaluesList_of_mem hall

/-- Erasure preserves list length. -/
theorem eraseUpvaluesList_length :
    ∀ (ps : List Prototype), (eraseUpvaluesList ps).length = ps.length := by
  intro ps
  induction ps with
  | nil => rfl
  | cons p ps ih => simp only [eraseUpvaluesList, List.length_cons, ih]

/-- Erasing `upvalues` lists does not change the emitted child bytes. -/
theorem writeProto51List_erase (en : LuaEndianness) (h : ChunkHeader)
    {ps : List Prototype}
    (hmem : ∀ q ∈ ps, writeProto51 en h q = writeProto51 en h (eraseUpvalues q)) :
    writeProto51List en h ps = writeProto51List en h (eraseUpvaluesList ps) := by
  induction ps with
  | nil => rfl
  | cons p ps ih =>
    simp only [eraseUpvaluesList, writeProto51List]
    rw [hmem p (List.mem_cons_self p ps),
      ih fun q hq => hmem q (List.mem_cons_of_mem p hq)]

/-- `write_prototype51` never consults the `upvalues` field. -/
theorem writeProto51_erase (en : LuaEndianness) (h : ChunkHeader) :
    ∀ (n : Nat) (p : Prototype), protoDepth p ≤ n →
      writeProto51 en h p = writeProto51 en h (eraseUpvalues p) := by
  intro n
  induction n with
  | zero =>
    intro p hd
    exact absurd (le_trans (protoDepth_pos p) hd) (by norm_num)
  | succ n ih =>
    intro p hd
    obtain ⟨source, ld, lld, np, iv, mss, code, consts, ups, nups, protos, dbg⟩ := p
    have hmem : ∀ q ∈ protos,
        writeProto51 en h q = writeProto51 en h (eraseUpvalues q) := by
      intro q hq
      refine ih q ?_
      have hql := protoDepth_le_listDepth q hq
      simp only [protoDepth] at hd
      omega
    simp only [eraseUpvalues, writeProto51]
    rw [writeProto51List_erase en h hmem, eraseUpvaluesList_length]

/-! ## Claim theorems -/

/-- Claim C1, counterexample: the claim quantifies over both revisions,
but encoding any revision-B (Lua 5.3) chunk fails outright —
`write_prototype53` is `todo!()` — so encode-then-decode cannot succeed
for revision B. -/
theorem c1_lua53_write_fails : writeChunk c53chunk = .error .panicTodo := rfl

/-- Claim C1 (amended): for every validly constructed *revision-A*
(Lua 5.1) chunk — fields, counts, string lengths within their declared
widths, `lua_integer_bytes = 8` (the reader's fixed revision-A value),
numbers at width 8 and not NaN, empty upvalue lists — encoding with
`write_chunk` succeeds and decoding the bytes with `read_chunk` returns a
structurally equal chunk, for both byte orders, leaving trailing bytes
untouched. -/
theorem c1_roundtrip_lua51 (c : Chunk) (rest : List Nat)
    (hvalid : validChunk c = true) :
    ∃ bs, writeChunk c = .ok bs ∧ readChunk (bs ++ rest) = .ok (c, rest) :=
  readChunk_rt c rest hvalid

set_option maxRecDepth 8000 in
/-- Witness for C1: a concrete little-endian revision-A chunk with nested
prototypes, all five constant variants and debug info round-trips. -/
theorem c1_roundtrip_lua51_witness :
    validChunk c1chunk = true ∧
    ∃ bs, writeChunk c1chunk = .ok bs ∧
      readChunk (bs ++ [9]) = .ok (c1chunk, [9]) :=
  ⟨by rfl, c1_roundtrip_lua51 c1chunk [9] (by rfl)⟩

/-- Claim C2: the claim says a size byte `b` with `1 <= b <= 254` is
followed by `b - 1` payload bytes; the code (`read_lua_string_52`) reads
`b` payload bytes — on input `[2, 65, 66]` it returns the 2-byte string
`[65, 66]` and consumes the whole input, where the claim predicts the
1-byte string `[65]`. -/
theorem c2_string52_reads_b_bytes (en : LuaEndianness) (h : ChunkHeader) :
    readLuaString52 en h [2, 65, 66] = .ok ([65, 66], []) := rfl

set_option maxRecDepth 8000 in
/-- Claim C3: the claim says `write_header` then `read_header` is the
identity on valid headers and that no integral-numbers flag byte is
written for revision B; the code writes that byte unconditionally, and
`read_header` (which does not consume it for Lua 5.3) then misparses the
sentinel integer and rejects the encoder's own output. -/
theorem c3_header53_roundtrip_fails :
    readHeader (writeHeader h53) = .error .badTestInt := rfl

set_option maxRecDepth 8000 in
/-- Claim C4: the claim says a sentinel float deviating from 370.5 by
more than the tolerance (e.g. 0.0) must fail with the number-sentinel
error; the code tests `test_num.abs() - 370.5 > 0.0001` (the absolute
value is taken *before* subtracting, so the check only rejects values
whose magnitude exceeds 370.5001), and a sentinel float of `-370.5` —
one of the claim's own examples — is accepted: the header decodes
successfully. -/
theorem c4_bad_float_sentinel_accepted :
    readHeader c4bytes = .ok (c4header, []) := rfl

set_option maxRecDepth 8000 in
/-- Claim C5, counterexample: a complete revision-A (Lua 5.1) chunk whose
constant pool carries tag `0x13` decodes *successfully* to an `Integer`
constant, where the claim predicts the unknown-constant-tag error. -/
theorem c5_integer_tag_accepted_rev_a :
    readChunk c5bytes = .ok (c5chunk, []) := rfl

/-- Claim C5 (amended): in this implementation tag `0x13` is recognized
in revision A as well, decoding as an `Integer` constant read at
`lua_integer_bytes` width; only tags outside
`{0x00, 0x01, 0x03, 0x13, 0x04, 0x14}` fail with the
unknown-constant-tag error. -/
theorem c5_constant_tag_dispatch (en : LuaEndianness) (h : ChunkHeader)
    (rest : List Nat) (v : Int) (hv : h.version = Version.lua51)
    (hi : h.luaIntegerBytes = ValueSize.eight)
    (hfit : fitsSigned ValueSize.eight v = true) :
    readConstant en h (0x13 :: (writeLuaInteger en h v ++ rest)) =
      .ok (.integer v, rest) ∧
    ∀ t, t ∉ [0x00, 0x01, 0x03, 0x13, 0x04, 0x14] →
      ∀ l, readConstant en h (t :: l) = .error (.unknownConstantTag t) := by
  constructor
  · unfold readConstant
    rw [bind_ok (readU8_cons _ _)]
    show (readLuaInteger en h >>= fun v2 =>
      (pure (Constant.integer v2) : M Constant)) _ = _
    rw [bind_ok (readLuaInteger_rt en h v rest (by rw [hi]; exact hfit)),
      pure_run]
  · intro t ht l
    unfold readConstant
    rw [bind_ok (readU8_cons _ _)]
    split <;> simp_all [mfail]

/-- Witness for C5: tag `0x13` decodes to `Integer 5` under a Lua 5.1
header, and tag `0x02` is rejected. -/
theorem c5_constant_tag_dispatch_witness :
    readConstant LuaEndianness.big h51
      (0x13 :: (writeLuaInteger LuaEndianness.big h51 5 ++ [7])) =
      .ok (.integer 5, [7]) ∧
    readConstant LuaEndianness.big h51 (0x02 :: [9]) =
      .error (.unknownConstantTag 0x02) :=
  ⟨(c5_constant_tag_dispatch LuaEndianness.big h51 [7] 5 rfl rfl (by rfl)).1,
    (c5_constant_tag_dispatch LuaEndianness.big h51 [7] 5 rfl rfl (by rfl)).2
      0x02 (by decide) [9]⟩

set_option maxRecDepth 4000 in
/-- Claim C6: the claim says the encoder uses the one-byte form exactly
when `length + 1 < 0xFF`, so a string of length 254 must use the `0xFF`
escape form; the code (`write_lua_string_52`) compares the raw length
against `0xFF`, so a 254-byte string is emitted in the one-byte form with
first byte 254. -/
theorem c6_len254_one_byte_form (en : LuaEndianness) (h : ChunkHeader) :
    writeLuaString52 en h (List.replicate 254 7) =
      .ok (254 :: List.replicate 254 7) := rfl

set_option maxRecDepth 8000 in
/-- Claim C7: the claim says a revision-B chunk whose sentinels are
stored little-endian decodes with `byte_order = little`; when
`integer_bytes = 4` the retry byte-swaps the *sign-extended 64-bit* value
instead of the 4 raw bytes (`i64::from_be_bytes(v.to_le_bytes())`), so a
valid little-endian width-4 sentinel pair is rejected with the
endianness-sentinel error. -/
theorem c7_le_width4_detection_fails :
    readHeader c7bytes = .error .badTestInt := rfl

/-- Claim C8: any input whose first 3 bytes are the LuaJIT signature
prefix `\x01LJ` is rejected with the dedicated unsupported-format error,
for every continuation — decoding neither reads nor depends on any byte
after the 3-byte prefix. -/
theorem c8_luajit_prefix_rejected (rest : List Nat) :
    readChunk (0x01 :: 0x4C :: 0x4A :: rest) = .error .luaJitUnsupported := by
  have h3 : readN 3 (0x01 :: 0x4C :: 0x4A :: rest) =
      .ok ([0x01, 0x4C, 0x4A], rest) := readN_append [0x01, 0x4C, 0x4A] rest
  have hh : readHeader (0x01 :: 0x4C :: 0x4A :: rest) =
      .error .luaJitUnsupported := by
    unfold readHeader
    rw [bind_ok h3, if_pos rfl]
    rfl
  unfold readChunk
  rw [hh]

/-- Claim C9: the revision-A upvalue list is dead on the wire — every
prototype at every depth produced by a successful `read_prototype51` has
an empty `upvalues` list, and the bytes `write_prototype51` emits do not
depend on the `upvalues` contents (erasing them throughout changes
nothing; only `nups` is written). -/
theorem c9_upvalues_dead_on_wire :
    (∀ (en : LuaEndianness) (h : ChunkHeader) (fuel : Nat) (l : List Nat)
        (p : Prototype) (r : List Nat),
      readProto51 en h fuel l = .ok (p, r) → noUpvalues p = true) ∧
    (∀ (en : LuaEndianness) (h : ChunkHeader) (p : Prototype),
      writeProto51 en h p = writeProto51 en h (eraseUpvalues p)) :=
  ⟨fun en h fuel l p r hr => readProto51_noUpvalues en h fuel l p r hr,
    fun en h p => writeProto51_erase en h (protoDepth p) p le_rfl⟩

/-- Witness for C9: a concretely decoded prototype has no upvalues, and a
prototype with populated upvalue lists writes the same bytes as its
erased form. -/
theorem c9_upvalues_dead_on_wire_witness :
    noUpvalues trivialProto = true ∧
    writeProto51 LuaEndianness.big h51 c9proto =
      writeProto51 LuaEndianness.big h51 (eraseUpvalues c9proto) :=
  ⟨c9_upvalues_dead_on_wire.1 LuaEndianness.big h51 11 c9bytes trivialProto []
      (by rfl),
    c9_upvalues_dead_on_wire.2 LuaEndianness.big h51 c9proto⟩

/-- Claim C10: sequence counts are decoded as signed integers of width
`int_bytes`; a decoded count of 0 yields the empty sequence without
invoking the element reader, and a negative decoded count fails with the
length error, again without invoking the element reader — for *every*
element reader `f`. -/
theorem c10_vector_counts_signed (en : LuaEndianness) (h : ChunkHeader)
    {α : Type} (f : M α) (l : List Nat) (cnt : Int) (r : List Nat)
    (hdec : readLuaInt en h l = .ok (cnt, r)) :
    (cnt = 0 → readLuaVector en h f l = .ok ([], r)) ∧
    (cnt < 0 → readLuaVector en h f l = .error (.lengthError cnt)) := by
  constructor
  · intro h0
    subst h0
    unfold readLuaVector
    rw [bind_ok hdec, if_pos rfl]
    rfl
  · intro hneg
    unfold readLuaVector
    rw [bind_ok hdec, if_neg (by omega), if_pos hneg]
    rfl

/-- Witness for C10: a zero count yields an empty vector consuming only
the count; the all-ones width-4 count decodes as −1 and fails with the
length error. -/
theorem c10_vector_counts_signed_witness :
    readLuaVector LuaEndianness.big h51 readU8 [0, 0, 0, 0] = .ok ([], []) ∧
    readLuaVector LuaEndianness.big h51 readU8 [0xFF, 0xFF, 0xFF, 0xFF] =
      .error (.lengthError (-1)) :=
  ⟨(c10_vector_counts_signed LuaEndianness.big h51 readU8 [0, 0, 0, 0] 0 []
      (by rfl)).1 rfl,
    (c10_vector_counts_signed LuaEndianness.big h51 readU8
      [0xFF, 0xFF, 0xFF, 0xFF] (-1) [] (by rfl)).2 (by norm_num)⟩

end LuaKit
